import Mathlib

/-!
Verification development for the OnlyMonkes synchronization and membership
layer: the envelope codec (`parseContent`, `decodeMessage`, the send-side
packers), the reaction aggregator (`applyReaction`), the conversation
reconciler (`mergeMessage`, `upgradeOwnMessage`, `updateMessageStatus`, the
live-stream and resync ingestion paths), and the profile directory cache
(`cacheProfile`, `getCachedProfile`).

JavaScript strings are modelled as `List Char` (named `Str` below), so that
`split`/`slice`/`indexOf`/`join`/`startsWith` become structurally recursive
list functions.  JS numbers holding reaction counts are modelled as `Int`
(counts only ever see `+ 1` / `- 1`).  Object spread over partial records is
modelled with an explicit three-state field type that distinguishes an absent
key from a key present with `undefined`/`null`, which is exactly the
distinction JS spread semantics exposes.
-/

namespace OnlyMonkes

/-! ## Definitions: the shallow embedding of the codec, aggregator, reconciler
and profile cache, together with the predicates the claims are stated with and
the concrete scenario values used by counterexamples and witnesses. -/

/-- JS strings, modelled as lists of unicode scalars. -/
abbrev Str := List Char

/-- JS `s.startsWith(tag)`. -/
def startsWithS (s tag : Str) : Bool := List.isPrefixOf tag s

/-- JS `s.indexOf(c)` for a single-character needle, `none` for `-1`. -/
def indexOfC (c : Char) : Str → Option Nat
  | [] => none
  | a :: rest => if a = c then some 0 else (indexOfC c rest).map (· + 1)

/-- JS `s.split(c)` for a single-character separator. -/
def splitOnC (c : Char) : Str → List Str
  | [] => [[]]
  | a :: rest =>
    if a = c then [] :: splitOnC c rest
    else
      match splitOnC c rest with
      | t :: ts => (a :: t) :: ts
      | [] => [[a]]

/-- JS `parts.join(c)` for a single-character separator. -/
def joinC (c : Char) : List Str → Str
  | [] => []
  | [x] => x
  | x :: xs => x ++ c :: joinC c xs

/-- JS `s || undefined`: an empty string is falsy and becomes `undefined`. -/
def jsOrNone (s : Str) : Option Str := if s = [] then none else some s

/-- UTF-8 encoding of one unicode scalar value. -/
def utf8EncodeChar (c : Char) : List Nat :=
  if c.toNat < 0x80 then [c.toNat]
  else if c.toNat < 0x800 then [0xC0 + c.toNat / 64, 0x80 + c.toNat % 64]
  else if c.toNat < 0x10000 then
    [0xE0 + c.toNat / 4096, 0x80 + c.toNat / 64 % 64, 0x80 + c.toNat % 64]
  else
    [0xF0 + c.toNat / 262144, 0x80 + c.toNat / 4096 % 64, 0x80 + c.toNat / 64 % 64,
      0x80 + c.toNat % 64]

/-- UTF-8 bytes of a whole string. -/
def utf8Bytes (s : Str) : List Nat := (s.map utf8EncodeChar).flatten

/-- Decode one UTF-8 scalar from the front of a byte list. -/
def utf8DecodeOne : List Nat → Option (Nat × List Nat)
  | [] => none
  | b :: rest =>
    if b < 0x80 then some (b, rest)
    else if b < 0xC0 then none
    else if b < 0xE0 then
      match rest with
      | b1 :: r =>
        if 0x80 ≤ b1 ∧ b1 < 0xC0 then some ((b - 0xC0) * 64 + (b1 - 0x80), r) else none
      | _ => none
    else if b < 0xF0 then
      match rest with
      | b1 :: b2 :: r =>
        if (0x80 ≤ b1 ∧ b1 < 0xC0) ∧ (0x80 ≤ b2 ∧ b2 < 0xC0) then
          some ((b - 0xE0) * 4096 + (b1 - 0x80) * 64 + (b2 - 0x80), r)
        else none
      | _ => none
    else if b < 0xF8 then
      match rest with
      | b1 :: b2 :: b3 :: r =>
        if (0x80 ≤ b1 ∧ b1 < 0xC0) ∧ (0x80 ≤ b2 ∧ b2 < 0xC0) ∧ (0x80 ≤ b3 ∧ b3 < 0xC0) then
          some ((b - 0xF0) * 262144 + (b1 - 0x80) * 4096 + (b2 - 0x80) * 64 + (b3 - 0x80), r)
        else none
      | _ => none
    else none

/-- Fuelled UTF-8 decoding loop (the fuel is instantiated with the list length). -/
def utf8DecodeAux : Nat → List Nat → Option (List Nat)
  | fuel, bs =>
    if bs = [] then some []
    else
      match fuel with
      | 0 => none
      | f + 1 =>
        match utf8DecodeOne bs with
        | none => none
        | some (n, rest) => (utf8DecodeAux f rest).map (n :: ·)

/-- UTF-8 decoding of a byte list into unicode scalar values. -/
def utf8Decode (bs : List Nat) : Option (List Nat) := utf8DecodeAux bs.length bs

/-- The base64 alphabet. -/
def b64Table : List Char :=
  ['A','B','C','D','E','F','G','H','I','J','K','L','M','N','O','P','Q','R','S','T','U','V',
   'W','X','Y','Z','a','b','c','d','e','f','g','h','i','j','k','l','m','n','o','p','q','r',
   's','t','u','v','w','x','y','z','0','1','2','3','4','5','6','7','8','9','+','/']

/-- Digit `n` of the base64 alphabet. -/
def b64Digit (n : Nat) : Char := b64Table.getD n 'A'

/-- Index of a character in the base64 alphabet. -/
def b64Val (c : Char) : Nat := b64Table.indexOf c

/-- RFC 4648 base64 encoding of a byte list, with `=` padding. -/
def b64Encode : List Nat → List Char
  | [] => []
  | [a] => [b64Digit (a / 4), b64Digit (a % 4 * 16), '=', '=']
  | [a, b] => [b64Digit (a / 4), b64Digit (a % 4 * 16 + b / 16), b64Digit (b % 16 * 4), '=']
  | a :: b :: c :: rest =>
    b64Digit (a / 4) :: b64Digit (a % 4 * 16 + b / 16) :: b64Digit (b % 16 * 4 + c / 64) ::
      b64Digit (c % 64) :: b64Encode rest

/-- Base64 decoding (inverse of `b64Encode` on its outputs). -/
def b64Decode : List Char → List Nat
  | c1 :: c2 :: c3 :: c4 :: rest =>
    if c4 = '=' then
      if c3 = '=' then [b64Val c1 * 4 + b64Val c2 / 16]
      else [b64Val c1 * 4 + b64Val c2 / 16, b64Val c2 % 16 * 16 + b64Val c3 / 4]
    else
      (b64Val c1 * 4 + b64Val c2 / 16) :: (b64Val c2 % 16 * 16 + b64Val c3 / 4) ::
        (b64Val c3 % 4 * 64 + b64Val c4) :: b64Decode rest
  | _ => []

/-- Modelled external dependency (Node): `Buffer.from(s).toString("base64")`. -/
def bufToBase64 (s : Str) : Str := b64Encode (utf8Bytes s)

/-- Modelled external dependency (Node): `Buffer.from(t, "base64").toString("utf8")`. -/
def bufFromBase64 (t : Str) : Str :=
  match utf8Decode (b64Decode t) with
  | some cps => cps.map Char.ofNat
  | none => []

/-- Message delivery status (`'sending' | 'sent' | 'failed'`). -/
inductive MsgStatus where
  | sending
  | sent
  | failed
deriving DecidableEq

/-- The `senderNft` field (`{ mint, name, image: string | null }`). -/
structure SenderNft where
  mint : Str
  name : Str
  image : Option Str
deriving DecidableEq

/-- The `replyTo` field of a `ChatMessage`. -/
structure ReplyTo where
  id : Str
  content : Str
  senderAddress : Str
  senderUsername : Option Str
deriving DecidableEq

/-- Aggregate reaction state for one emoji (`MessageReaction`). -/
structure MessageReaction where
  emoji : Str
  count : Int
  reactedByMe : Bool
  reactors : List Str
deriving DecidableEq

/-- Reconciled, UI-facing chat message (`ChatMessage`).  The `reactions`
record (`Partial Record ReactionEmoji MessageReaction`) is modelled as an
association list keyed by the emoji string. -/
structure ChatMessage where
  id : Str
  senderAddress : Str
  senderUsername : Option Str
  senderNft : Option SenderNft
  content : Str
  sentAt : Int
  reactions : List (Str × MessageReaction)
  replyTo : Option ReplyTo
  status : Option MsgStatus
deriving DecidableEq

instance : Inhabited ChatMessage :=
  ⟨⟨[], [], none, none, [], 0, [], none, none⟩⟩

/-- Result of calling `content()` on a raw transport message. -/
inductive RawContent where
  | err
  | nullish
  | ok (s : Str)
deriving DecidableEq

/-- Raw transport message as consumed by the decoder. -/
structure RawMsg where
  id : Str
  senderInboxId : Str
  sentNs : Int
  content : RawContent
deriving DecidableEq

/-- Key lookup in an association list (JS object property read). -/
def lookupAssoc {α : Type} (k : Str) : List (Str × α) → Option α
  | [] => none
  | (k', v) :: rest => if k' = k then some v else lookupAssoc k rest

/-- Key update in an association list (JS `{...obj, [k]: v}` for a key that
is already present; appends otherwise, matching JS property-order rules). -/
def setAssoc {α : Type} (k : Str) (v : α) : List (Str × α) → List (Str × α)
  | [] => [(k, v)]
  | (k', v') :: rest => if k' = k then (k', v) :: rest else (k', v') :: setAssoc k v rest

/-- The literal `"MSG:"`. -/
def msgTag : Str := ['M', 'S', 'G', ':']

/-- The literal `"REACT:"`. -/
def reactTag : Str := ['R', 'E', 'A', 'C', 'T', ':']

/-- The literal `"PROFILE_UPDATE:"`. -/
def profileTag : Str :=
  ['P', 'R', 'O', 'F', 'I', 'L', 'E', '_', 'U', 'P', 'D', 'A', 'T', 'E', ':']

/-- The literal `"EVENT:"`. -/
def eventTag : Str := ['E', 'V', 'E', 'N', 'T', ':']

/-- The literal `"REPLYv2:"`. -/
def replyV2Tag : Str := ['R', 'E', 'P', 'L', 'Y', 'v', '2', ':']

/-- The literal `"REPLY:"`. -/
def replyTag : Str := ['R', 'E', 'P', 'L', 'Y', ':']

/-- The literal `"opt-"` marking optimistic local ids. -/
def optTag : Str := ['o', 'p', 't', '-']

/-- The configured reaction set, `REACTIONS = ['🍌']` from `constants.ts`. -/
def REACTIONS : List Str := [['🍌']]

/-- Source `buildEmptyReactions`: one zeroed `MessageReaction` per configured
emoji. -/
def buildEmptyReactions : List (Str × MessageReaction) :=
  REACTIONS.map fun emoji => (emoji, ⟨emoji, 0, false, []⟩)

/-- Source `parseContent`: strips at most one outer `MSG:<username>:` wrapper. -/
def parseContent (raw : Str) : Option Str × Str :=
  if startsWithS raw msgTag then
    match indexOfC ':' (raw.drop 4) with
    | some colonIdx => (some ((raw.drop 4).take colonIdx), (raw.drop 4).drop (colonIdx + 1))
    | none => (none, raw)
  else (none, raw)

/-- Source `decodeMessage`. -/
def decodeMessage (raw : RawMsg) (myInboxId : Str) : Option ChatMessage :=
  match raw.content with
  | .err => none
  | .nullish => none
  | .ok rawContent =>
    if rawContent = [] then none
    else if startsWithS rawContent reactTag then none
    else if startsWithS rawContent profileTag then none
    else if startsWithS rawContent eventTag then none
    else
      let parsed := parseContent rawContent
      let username := parsed.1
      let inner := parsed.2
      if startsWithS inner replyV2Tag then
        let parts := splitOnC ':' (inner.drop 8)
        let targetId := parts.getD 0 []
        let targetSender := parts.getD 1 []
        let targetUsername := jsOrNone (parts.getD 2 [])
        let origB64 := parts.getD 3 []
        let replyContent := joinC ':' (parts.drop 4)
        some
          { id := raw.id, senderAddress := raw.senderInboxId, senderUsername := username,
            senderNft := none, content := replyContent, sentAt := raw.sentNs / 1000000,
            reactions := buildEmptyReactions,
            replyTo := some ⟨targetId, bufFromBase64 origB64, targetSender, targetUsername⟩,
            status := some .sent }
      else if startsWithS inner replyTag then
        let parts := splitOnC ':' inner
        let targetId := parts.getD 1 []
        let targetSender := parts.getD 2 []
        let replyContent := joinC ':' (parts.drop 3)
        some
          { id := raw.id, senderAddress := raw.senderInboxId, senderUsername := username,
            senderNft := none, content := replyContent, sentAt := raw.sentNs / 1000000,
            reactions := buildEmptyReactions,
            replyTo := some ⟨targetId, [], targetSender, none⟩,
            status := some .sent }
      else
        some
          { id := raw.id, senderAddress := raw.senderInboxId, senderUsername := username,
            senderNft := none, content := inner, sentAt := raw.sentNs / 1000000,
            reactions := buildEmptyReactions, replyTo := none, status := some .sent }

/-- The updated `MessageReaction` record built inside `applyReaction`:
decrement and drop the sender when they already reacted, else increment and
append them; flip `reactedByMe` when the sender is the local viewer. -/
def toggleReaction (sender myInboxId : Str) (existing : MessageReaction) :
    MessageReaction :=
  { emoji := existing.emoji,
    count :=
      if sender ∈ existing.reactors then existing.count - 1 else existing.count + 1,
    reactedByMe :=
      if sender = myInboxId then !existing.reactedByMe else existing.reactedByMe,
    reactors :=
      if sender ∈ existing.reactors then existing.reactors.filter (· ≠ sender)
      else existing.reactors ++ [sender] }

/-- The per-message body of `applyReaction`'s `messages.map`: toggle `sender`
in the target message's reaction state for `emoji`. -/
def applyReactionTo (sender myInboxId : Str) (emoji targetId : Option Str)
    (msg : ChatMessage) : ChatMessage :=
  if targetId ≠ some msg.id then msg
  else
    match emoji with
    | none => msg
    | some em =>
      match lookupAssoc em msg.reactions with
      | none => msg
      | some existing =>
        { msg with
          reactions := setAssoc em (toggleReaction sender myInboxId existing) msg.reactions }

/-- Source `applyReaction`: fold one `REACT:<emoji>:<targetId>` raw message into
the list. -/
def applyReaction (messages : List ChatMessage) (raw : RawMsg) (myInboxId : Str) :
    List ChatMessage :=
  match raw.content with
  | .err => messages
  | .nullish => messages
  | .ok content =>
    if ¬ (startsWithS content reactTag = true) then messages
    else
      messages.map
        (applyReactionTo raw.senderInboxId myInboxId ((splitOnC ':' content).get? 1)
          ((splitOnC ':' content).get? 2))

/-- Source `sendMessage` payload packing: `MSG:<username>:<content>` when the
username is truthy, the bare content otherwise. -/
def packMessage (content : Str) (username : Option Str) : Str :=
  match username with
  | some u => if u = [] then content else msgTag ++ u ++ ':' :: content
  | none => content

/-- Source `sendReply` payload packing (`REPLYv2`), base64-protecting the
quoted original content. -/
def packReply (targetMessage : ChatMessage) (replyContent : Str) (username : Option Str) :
    Str :=
  let origB64 := bufToBase64 targetMessage.content
  let origUsername := targetMessage.senderUsername.getD []
  let inner :=
    replyV2Tag ++ targetMessage.id ++ ':' :: targetMessage.senderAddress ++
      ':' :: origUsername ++ ':' :: origB64 ++ ':' :: replyContent
  packMessage inner username

/-- Source `sendReaction` payload packing: `REACT:<emoji>:<targetMessageId>`. -/
def packReaction (emoji : Str) (targetMessageId : Str) : Str :=
  reactTag ++ emoji ++ ':' :: targetMessageId

/-- The match condition of `mergeMessage`/`upgradeOwnMessage`: an `opt-`
entry from the same sender with the same content. -/
def isOptMatch (message : ChatMessage) (m : ChatMessage) : Bool :=
  startsWithS m.id optTag && decide (m.senderAddress = message.senderAddress) &&
    decide (m.content = message.content)

/-- The upgraded entry both stores build: the confirmed message, keeping the
optimistic entry's `senderNft` when the confirmed one lacks it, marked sent. -/
def mkUpgraded (message opt : ChatMessage) : ChatMessage :=
  { message with
    senderNft :=
      match opt.senderNft with
      | some n => some n
      | none => message.senderNft,
    status := some .sent }

/-- Source `mergeMessage`: skip an id duplicate, upgrade a matching
optimistic bubble in place, otherwise append. -/
def mergeMessage (messages : List ChatMessage) (message : ChatMessage) : List ChatMessage :=
  if messages.any fun m => decide (m.id = message.id) then messages
  else
    match messages.findIdx? (isOptMatch message) with
    | some optIdx => messages.set optIdx (mkUpgraded message (messages.getD optIdx default))
    | none => messages ++ [message]

/-- Source `upgradeOwnMessage`: like `mergeMessage` but never appends. -/
def upgradeOwnMessage (messages : List ChatMessage) (message : ChatMessage) :
    List ChatMessage :=
  if messages.any fun m => decide (m.id = message.id) then messages
  else
    match messages.findIdx? (isOptMatch message) with
    | some optIdx => messages.set optIdx (mkUpgraded message (messages.getD optIdx default))
    | none => messages

/-- Source `updateMessageStatus`. -/
def updateMessageStatus (messages : List ChatMessage) (id : Str) (status : MsgStatus) :
    List ChatMessage :=
  messages.map fun m => if m.id = id then { m with status := some status } else m

/-- Source `addMessage`. -/
def addMessage (messages : List ChatMessage) (message : ChatMessage) : List ChatMessage :=
  messages ++ [message]

/-- One field of a (partial) cached profile record. -/
inductive PField where
  | absent
  | undef
  | null
  | val (s : Str)
deriving DecidableEq

/-- Cached profile record (`CachedProfile`). -/
structure CachedProfile where
  username : PField
  bio : PField
  xAccount : PField
  walletAddress : PField
  tipWallet : PField
  nftImage : PField
deriving DecidableEq

/-- The record with no keys. -/
def emptyProfile : CachedProfile := ⟨.absent, .absent, .absent, .absent, .absent, .absent⟩

/-- JS object spread of one field: a key present in the update (even holding
`undefined` or `null`) overwrites; an absent key keeps the old value. -/
def spreadField (old upd : PField) : PField :=
  match upd with
  | .absent => old
  | u => u

/-- JS truthiness of a field read (`?.nftImage` in a boolean position):
only a non-empty string is truthy. -/
def truthyField : PField → Bool
  | .val s => decide (s ≠ [])
  | _ => false

/-- Source `cacheProfile`: spread-merge the partial update over the existing
record, with the special case keeping a known `nftImage` when the update has
`nftImage === null`. -/
def cacheProfile (cache : List (Str × CachedProfile)) (inboxId : Str)
    (profile : CachedProfile) : List (Str × CachedProfile) :=
  let old := (lookupAssoc inboxId cache).getD emptyProfile
  let merged : CachedProfile :=
    { username := spreadField old.username profile.username,
      bio := spreadField old.bio profile.bio,
      xAccount := spreadField old.xAccount profile.xAccount,
      walletAddress := spreadField old.walletAddress profile.walletAddress,
      tipWallet := spreadField old.tipWallet profile.tipWallet,
      nftImage := spreadField old.nftImage profile.nftImage }
  let merged' : CachedProfile :=
    match lookupAssoc inboxId cache with
    | some prev =>
      if profile.nftImage = .null ∧ truthyField prev.nftImage = true then
        { merged with nftImage := prev.nftImage }
      else merged
    | none => merged
  setAssoc inboxId merged' cache

/-- Source `getCachedProfile`. -/
def getCachedProfile (cache : List (Str × CachedProfile)) (inboxId : Str) :
    Option CachedProfile :=
  lookupAssoc inboxId cache

/-- Source `enrichWithNft`: fill `senderNft` from the profile cache when the
decoded message has none. -/
def enrichWithNft (cache : List (Str × CachedProfile)) (msg : ChatMessage) : ChatMessage :=
  match msg.senderNft with
  | some _ => msg
  | none =>
    match lookupAssoc msg.senderAddress cache with
    | some cached =>
      match cached.nftImage with
      | .val s => if s = [] then msg else { msg with senderNft := some ⟨[], [], some s⟩ }
      | _ => msg
    | none => msg

/-- Live-stream handler of `useXmtp.initialize` (the `streamMessages`
callback), projected onto the message list: a throwing `content()` returns,
`REACT:` payloads go through `applyReaction`, `PROFILE_UPDATE:` and `EVENT:`
payloads return before touching the list (they only update the profile cache
resp. the calendar), anything else is decoded, own messages are skipped, and
the rest is merged after NFT enrichment. -/
def ingestLive (messages : List ChatMessage) (raw : RawMsg) (my : Str)
    (cache : List (Str × CachedProfile)) : List ChatMessage :=
  match raw.content with
  | .err => messages
  | .nullish => messages
  | .ok content =>
    if startsWithS content reactTag then applyReaction messages raw my
    else if startsWithS content profileTag then messages
    else if startsWithS content eventTag then messages
    else
      match decodeMessage raw my with
      | none => messages
      | some msg =>
        if msg.senderAddress = my then messages
        else mergeMessage messages (enrichWithNft cache msg)

/-- One new-message step of `syncMessages`: messages whose id is already
present are filtered out, own messages go to `upgradeOwnMessage`, others to
`mergeMessage`, both after NFT enrichment. -/
def syncDeliver (messages : List ChatMessage) (raw : RawMsg) (my : Str)
    (cache : List (Str × CachedProfile)) : List ChatMessage :=
  match decodeMessage raw my with
  | none => messages
  | some m =>
    if messages.any fun x => decide (x.id = m.id) then messages
    else if m.senderAddress = my then upgradeOwnMessage messages (enrichWithNft cache m)
    else mergeMessage messages (enrichWithNft cache m)

/-- Optimistic entry appended by `handleSend` (ChatScreen): locally generated
`opt-` id, empty reactions record, status `sending`. -/
def mkOptimistic (optId : Str) (myAddress : Str) (username : Option Str)
    (verifiedNft : Option SenderNft) (text : Str) (sentAt : Int)
    (replyingTo : Option ChatMessage) : ChatMessage :=
  { id := optId, senderAddress := myAddress, senderUsername := username,
    senderNft := verifiedNft, content := text, sentAt := sentAt, reactions := [],
    replyTo := replyingTo.map fun r => ⟨r.id, r.content, r.senderAddress, r.senderUsername⟩,
    status := some .sending }

/-- One event concerning a single logical send. -/
inductive SendEv where
  | resolve
  | live
  | syncd
deriving DecidableEq

/-- Apply one event to the message list.  `raw` is the transport echo of the
send, `optId` the optimistic entry's local id. -/
def sendStep (raw : RawMsg) (my : Str) (cache : List (Str × CachedProfile)) (optId : Str)
    (st : List ChatMessage) : SendEv → List ChatMessage
  | .resolve => updateMessageStatus st optId .sent
  | .live => ingestLive st raw my cache
  | .syncd => syncDeliver st raw my cache

/-- Run a sequence of events over the message list. -/
def runSendEvents (raw : RawMsg) (my : Str) (cache : List (Str × CachedProfile))
    (optId : Str) (st : List ChatMessage) : List SendEv → List ChatMessage
  | [] => st
  | e :: evs => runSendEvents raw my cache optId (sendStep raw my cache optId st e) evs

/-- Number of entries in the list representing the send `(my, body)`. -/
def countForSend (st : List ChatMessage) (my body : Str) : Nat :=
  (st.filter fun m => decide (m.senderAddress = my ∧ m.content = body)).length

/-- Equality of the observable aggregate reaction state: count, own-toggle
flag, and the reactor set. -/
def sameReactionState (r' r : MessageReaction) : Prop :=
  r'.count = r.count ∧ r'.reactedByMe = r.reactedByMe ∧
    ∀ x, x ∈ r'.reactors ↔ x ∈ r.reactors

/-- Lift of `sameReactionState` to optional lookups. -/
def optRelSame : Option MessageReaction → Option MessageReaction → Prop
  | some r', some r => sameReactionState r' r
  | none, none => True
  | _, _ => False

/-- Two messages with the same id and the same aggregate reaction state for
every emoji. -/
def sameAggregate (m' m : ChatMessage) : Prop :=
  m'.id = m.id ∧ ∀ e, optRelSame (lookupAssoc e m'.reactions) (lookupAssoc e m.reactions)

/-- The target id a raw payload addresses, as parsed by `applyReaction`
(defined only for `REACT:`-tagged string contents). -/
def parsedTargetId (raw : RawMsg) : Option Str :=
  match raw.content with
  | .ok content =>
    if startsWithS content reactTag then (splitOnC ':' content).get? 2 else none
  | _ => none

/-- The emoji a raw payload carries, as parsed by `applyReaction`. -/
def parsedEmoji (raw : RawMsg) : Option Str :=
  match raw.content with
  | .ok content =>
    if startsWithS content reactTag then (splitOnC ':' content).get? 1 else none
  | _ => none

/-- Frame relation: every field except `reactions` is unchanged, and a
message that is not the target is unchanged entirely. -/
def frameRel (target : Option Str) (m' m : ChatMessage) : Prop :=
  m'.id = m.id ∧ m'.senderAddress = m.senderAddress ∧
    m'.senderUsername = m.senderUsername ∧ m'.senderNft = m.senderNft ∧
    m'.content = m.content ∧ m'.sentAt = m.sentAt ∧ m'.replyTo = m.replyTo ∧
    m'.status = m.status ∧ (target ≠ some m.id → m' = m)

/-- Well-formed reaction state of one message: for every emoji entry, the
reactor list is duplicate-free (so its length is the number of distinct
reactor ids), the count equals that length, and the count is non-negative. -/
def wfMsg (m : ChatMessage) : Prop :=
  ∀ e r, lookupAssoc e m.reactions = some r →
    r.reactors.Nodup ∧ r.count = (r.reactors.length : Int) ∧ 0 ≤ r.count

/-- Sample local inbox id. -/
def sampleMy : Str := ['m', 'e']

/-- Sample message body. -/
def sampleBody : Str := ['g', 'm']

/-- Sample optimistic entry for a local send of `sampleBody`. -/
def sampleOpt : ChatMessage :=
  mkOptimistic ['o', 'p', 't', '-', '1'] sampleMy (some ['b', 'o', 'b']) none sampleBody 0 none

/-- Sample transport echo of that send, as delivered by the live stream or a
resync. -/
def sampleEcho : RawMsg :=
  ⟨['x', '1'], sampleMy, 0, .ok (packMessage sampleBody (some ['b', 'o', 'b']))⟩

/-- A raw payload with an unknown kind tag, `"FUTURE_KIND:xyz"`, from another
sender. -/
def futureRaw : RawMsg :=
  ⟨['x', '9'], ['a', 'l'], 0,
    .ok ['F', 'U', 'T', 'U', 'R', 'E', '_', 'K', 'I', 'N', 'D', ':', 'x', 'y', 'z']⟩

/-- Sample profile-cache key. -/
def dev1 : Str := ['d', 'e', 'v', '1']

/-- A cacheProfile update recording a username. -/
def profileSetName : CachedProfile :=
  { username := .val ['m', 'o', 'n', 'k', 'e'], bio := .absent, xAccount := .absent,
    walletAddress := .absent, tipWallet := .absent, nftImage := .absent }

/-- The update the PROFILE_UPDATE handler builds for a broadcast whose fields
are all empty strings: every key present, holding `undefined`
(`data.u || undefined` and friends). -/
def profileEmptyBroadcast : CachedProfile :=
  ⟨.undef, .undef, .undef, .undef, .undef, .undef⟩

/-- Valid display name: either absent, or non-empty without the structural
separator (an empty name is treated as absent by the truthiness check in the
send path). -/
def validName : Option Str → Prop
  | none => True
  | some u => u ≠ [] ∧ ':' ∉ u

/-- A plain text body: carries none of the protocol's kind tags, so it can
neither be mistaken for a system payload nor for a wrapped or reply
envelope. -/
def plainBody (c : Str) : Prop :=
  startsWithS c reactTag = false ∧ startsWithS c profileTag = false ∧
    startsWithS c eventTag = false ∧ startsWithS c msgTag = false ∧
    startsWithS c replyV2Tag = false ∧ startsWithS c replyTag = false

/-- The optimistic entry after the send promise resolved successfully. -/
def sentO (o : ChatMessage) : ChatMessage := { o with status := some .sent }

/-- The entry after a resync upgraded the optimistic bubble with the decoded
transport echo `d`. -/
def upgO (cache : List (Str × CachedProfile)) (d o : ChatMessage) : ChatMessage :=
  mkUpgraded (enrichWithNft cache d) o

/-- The three states the single entry for one logical send can be in. -/
def sendShape (cache : List (Str × CachedProfile)) (d o e : ChatMessage) : Prop :=
  e = o ∨ e = sentO o ∨ e = upgO cache d o

/-- The two states in which the entry is marked Sent. -/
def sendShapeSent (cache : List (Str × CachedProfile)) (d o e : ChatMessage) : Prop :=
  e = sentO o ∨ e = upgO cache d o

/-- The decode of `sampleEcho` for the local user. -/
def sampleDecoded : ChatMessage :=
  ⟨['x', '1'], sampleMy, some ['b', 'o', 'b'], none, sampleBody, 0,
    buildEmptyReactions, none, some .sent⟩

/-- A failed optimistic entry of another sender, awaiting the confirmed copy. -/
def mergeOpt : ChatMessage :=
  ⟨['o', 'p', 't', '-', '9'], ['a', 'l'], none, none, ['h', 'i'], 0, [], none,
    some .failed⟩

/-- The transport copy of `mergeOpt`'s send, arriving on the live stream. -/
def otherEcho : RawMsg := ⟨['x', '7'], ['a', 'l'], 0, .ok ['h', 'i']⟩

/-- The decode of `otherEcho`. -/
def otherDecoded : ChatMessage :=
  ⟨['x', '7'], ['a', 'l'], none, none, ['h', 'i'], 0, buildEmptyReactions, none,
    some .sent⟩

/-- A decoded chat message that reactions will target. -/
def reactedTarget : ChatMessage :=
  ⟨['m', '1'], ['a', 'l'], none, none, ['h', 'i'], 0, buildEmptyReactions, none,
    some .sent⟩

/-- A banana reaction on `reactedTarget` from another sender. -/
def reactAl : RawMsg := ⟨['r', '1'], ['a', 'l'], 0, .ok (packReaction ['🍌'] ['m', '1'])⟩

/-- A banana reaction on `reactedTarget` from the local user. -/
def reactMe : RawMsg := ⟨['r', '2'], sampleMy, 0, .ok (packReaction ['🍌'] ['m', '1'])⟩

/-- A banana reaction whose target id matches no loaded message. -/
def reactStray : RawMsg := ⟨['r', '3'], ['a', 'l'], 0, .ok (packReaction ['🍌'] ['z', 'z'])⟩

/-- The aggregate banana state after `reactAl` and `reactMe` both toggled on. -/
def bananaBoth : MessageReaction := ⟨['🍌'], 2, true, [['a', 'l'], sampleMy]⟩

/-! ## Theorems: supporting lemmas first, then one theorem per claim with its
witness or counterexample. -/

theorem splitOnC_ne_nil (c : Char) (s : Str) : splitOnC c s ≠ [] := by
  induction s with
  | nil => simp [splitOnC]
  | cons a rest ih =>
    simp only [splitOnC]
    split
    · simp
    · cases h : splitOnC c rest with
      | nil => exact absurd h ih
      | cons t ts => simp

theorem joinC_splitOnC (c : Char) (s : Str) : joinC c (splitOnC c s) = s := by
  induction s with
  | nil => simp [splitOnC, joinC]
  | cons a rest ih =>
    by_cases h : a = c
    · subst h
      simp only [splitOnC, if_pos rfl]
      cases hs : splitOnC a rest with
      | nil => exact absurd hs (splitOnC_ne_nil a rest)
      | cons t ts =>
        rw [hs] at ih
        simpa [joinC] using ih
    · simp only [splitOnC, if_neg h]
      cases hs : splitOnC c rest with
      | nil => exact absurd hs (splitOnC_ne_nil c rest)
      | cons t ts =>
        rw [hs] at ih
        cases ts with
        | nil => simpa [joinC] using ih
        | cons t' ts' => simpa [joinC] using ih

theorem splitOnC_append (c : Char) (u rest : Str) (hu : c ∉ u) :
    splitOnC c (u ++ c :: rest) = u :: splitOnC c rest := by
  induction u with
  | nil => simp [splitOnC]
  | cons a u' ih =>
    have ha : a ≠ c := by
      intro h; exact hu (by simp [h])
    have hu' : c ∉ u' := fun h => hu (by simp [h])
    simp only [List.cons_append, splitOnC, if_neg ha, ih hu']
    rw [show (u'.append (c :: rest)) = u' ++ c :: rest from rfl, ih hu']

theorem splitOnC_no_sep (c : Char) (s : Str) (hs : c ∉ s) :
    splitOnC c s = [s] := by
  induction s with
  | nil => simp [splitOnC]
  | cons a rest ih =>
    have ha : a ≠ c := by intro h; exact hs (by simp [h])
    have hrest : c ∉ rest := fun h => hs (by simp [h])
    simp [splitOnC, if_neg ha, ih hrest]

theorem indexOfC_append (c : Char) (u rest : Str) (hu : c ∉ u) :
    indexOfC c (u ++ c :: rest) = some u.length := by
  induction u with
  | nil => simp [indexOfC]
  | cons a u' ih =>
    have ha : a ≠ c := by intro h; exact hu (by simp [h])
    have hu' : c ∉ u' := fun h => hu (by simp [h])
    simp [indexOfC, if_neg ha, ih hu']

theorem char_toNat_lt (c : Char) : c.toNat < 0x110000 := by
  rcases c.valid with h | h
  · exact Nat.lt_trans h (by norm_num)
  · exact h.2

theorem utf8EncodeChar_ne_nil (c : Char) : utf8EncodeChar c ≠ [] := by
  unfold utf8EncodeChar
  split <;> try simp
  split <;> try simp
  split <;> simp

theorem utf8EncodeChar_lt (c : Char) : ∀ b ∈ utf8EncodeChar c, b < 256 := by
  have hv := char_toNat_lt c
  unfold utf8EncodeChar
  split
  · intro b hb; simp at hb; omega
  · split
    · intro b hb; simp at hb; rcases hb with h | h <;> omega
    · split
      · intro b hb; simp at hb; rcases hb with h | h | h <;> omega
      · intro b hb; simp at hb; rcases hb with h | h | h | h <;> omega

theorem utf8DecodeOne_encode (c : Char) (rest : List Nat) :
    utf8DecodeOne (utf8EncodeChar c ++ rest) = some (c.toNat, rest) := by
  have hv := char_toNat_lt c
  unfold utf8EncodeChar
  by_cases h1 : c.toNat < 0x80
  · rw [if_pos h1]
    show utf8DecodeOne (c.toNat :: rest) = _
    simp only [utf8DecodeOne]
    rw [if_pos h1]
  · rw [if_neg h1]
    by_cases h2 : c.toNat < 0x800
    · rw [if_pos h2]
      show utf8DecodeOne ((0xC0 + c.toNat / 64) :: (0x80 + c.toNat % 64) :: rest) = _
      simp only [utf8DecodeOne]
      rw [if_neg (by omega), if_neg (by omega), if_pos (by omega)]
      rw [if_pos (by constructor <;> omega)]
      exact congrArg some (congrArg₂ Prod.mk (by omega) rfl)
    · rw [if_neg h2]
      by_cases h3 : c.toNat < 0x10000
      · rw [if_pos h3]
        show utf8DecodeOne
            ((0xE0 + c.toNat / 4096) :: (0x80 + c.toNat / 64 % 64) ::
              (0x80 + c.toNat % 64) :: rest) = _
        simp only [utf8DecodeOne]
        rw [if_neg (by omega), if_neg (by omega), if_neg (by omega), if_pos (by omega)]
        rw [if_pos (by refine ⟨⟨?_, ?_⟩, ?_, ?_⟩ <;> omega)]
        exact congrArg some (congrArg₂ Prod.mk (by omega) rfl)
      · rw [if_neg h3]
        show utf8DecodeOne
            ((0xF0 + c.toNat / 262144) :: (0x80 + c.toNat / 4096 % 64) ::
              (0x80 + c.toNat / 64 % 64) :: (0x80 + c.toNat % 64) :: rest) = _
        simp only [utf8DecodeOne]
        rw [if_neg (by omega), if_neg (by omega), if_neg (by omega), if_neg (by omega),
          if_pos (by omega)]
        rw [if_pos (by refine ⟨⟨?_, ?_⟩, ⟨?_, ?_⟩, ?_, ?_⟩ <;> omega)]
        exact congrArg some (congrArg₂ Prod.mk (by omega) rfl)

theorem utf8DecodeAux_encode (s : Str) :
    ∀ fuel, (utf8Bytes s).length ≤ fuel →
      utf8DecodeAux fuel (utf8Bytes s) = some (s.map Char.toNat) := by
  induction s with
  | nil =>
    intro fuel _
    show utf8DecodeAux fuel [] = some []
    simp [utf8DecodeAux.eq_def]
  | cons c s' ih =>
    intro fuel hfuel
    have hbytes : utf8Bytes (c :: s') = utf8EncodeChar c ++ utf8Bytes s' := by
      simp [utf8Bytes]
    rw [hbytes] at hfuel ⊢
    have hne : utf8EncodeChar c ++ utf8Bytes s' ≠ [] := by
      intro h
      exact utf8EncodeChar_ne_nil c (List.append_eq_nil.mp h).1
    have hlen : 1 ≤ (utf8EncodeChar c).length :=
      List.length_pos.mpr (utf8EncodeChar_ne_nil c)
    rw [List.length_append] at hfuel
    cases fuel with
    | zero => omega
    | succ f =>
      rw [utf8DecodeAux, if_neg hne, utf8DecodeOne_encode c (utf8Bytes s')]
      dsimp only
      rw [ih f (by omega)]
      simp

theorem utf8Decode_encode (s : Str) : utf8Decode (utf8Bytes s) = some (s.map Char.toNat) :=
  utf8DecodeAux_encode s _ le_rfl

theorem b64Val_b64Digit : ∀ n, n < 64 → b64Val (b64Digit n) = n := by decide

theorem b64Digit_ne_colon : ∀ n, n < 64 → b64Digit n ≠ ':' := by decide

theorem b64Digit_ne_pad : ∀ n, n < 64 → b64Digit n ≠ '=' := by decide

theorem b64Decode_b64Encode :
    ∀ bs : List Nat, (∀ b ∈ bs, b < 256) → b64Decode (b64Encode bs) = bs := by
  intro bs
  induction bs using b64Encode.induct with
  | case1 => intro _; rfl
  | case2 a =>
    intro h
    have ha : a < 256 := h a (by simp)
    rw [b64Encode, b64Decode, if_pos rfl, if_pos rfl]
    rw [b64Val_b64Digit _ (by omega), b64Val_b64Digit _ (by omega)]
    exact congrArg (· :: []) (by omega)
  | case3 a b =>
    intro h
    have ha : a < 256 := h a (by simp)
    have hb : b < 256 := h b (by simp)
    rw [b64Encode, b64Decode, if_pos rfl, if_neg (b64Digit_ne_pad _ (by omega))]
    rw [b64Val_b64Digit _ (by omega), b64Val_b64Digit _ (by omega),
      b64Val_b64Digit _ (by omega)]
    refine congrArg₂ (fun x y => x :: y :: []) (by omega) (by omega)
  | case4 a b c rest ih =>
    intro h
    have ha : a < 256 := h a (by simp)
    have hb : b < 256 := h b (by simp)
    have hc : c < 256 := h c (by simp)
    rw [b64Encode, b64Decode, if_neg (b64Digit_ne_pad _ (by omega))]
    rw [b64Val_b64Digit _ (by omega), b64Val_b64Digit _ (by omega),
      b64Val_b64Digit _ (by omega), b64Val_b64Digit _ (by omega)]
    rw [ih (fun x hx => h x (by simp [hx]))]
    refine congrArg₂ List.cons (by omega) ?_
    refine congrArg₂ List.cons (by omega) ?_
    exact congrArg₂ List.cons (by omega) rfl

theorem b64Encode_no_colon :
    ∀ bs : List Nat, (∀ b ∈ bs, b < 256) → ':' ∉ b64Encode bs := by
  intro bs
  induction bs using b64Encode.induct with
  | case1 => intro _; simp [b64Encode]
  | case2 a =>
    intro h
    have ha : a < 256 := h a (by simp)
    simp only [b64Encode, List.mem_cons, List.not_mem_nil, or_false]
    push_neg
    refine ⟨?_, ?_, by decide, by decide⟩
    · exact fun hx => b64Digit_ne_colon _ (by omega) hx.symm
    · exact fun hx => b64Digit_ne_colon _ (by omega) hx.symm
  | case3 a b =>
    intro h
    have ha : a < 256 := h a (by simp)
    have hb : b < 256 := h b (by simp)
    simp only [b64Encode, List.mem_cons, List.not_mem_nil, or_false]
    push_neg
    refine ⟨?_, ?_, ?_, by decide⟩
    · exact fun hx => b64Digit_ne_colon _ (by omega) hx.symm
    · exact fun hx => b64Digit_ne_colon _ (by omega) hx.symm
    · exact fun hx => b64Digit_ne_colon _ (by omega) hx.symm
  | case4 a b c rest ih =>
    intro h
    have ha : a < 256 := h a (by simp)
    have hb : b < 256 := h b (by simp)
    have hc : c < 256 := h c (by simp)
    simp only [b64Encode, List.mem_cons]
    push_neg
    refine ⟨?_, ?_, ?_, ?_, ih (fun x hx => h x (by simp [hx]))⟩
    · exact fun hx => b64Digit_ne_colon _ (by omega) hx.symm
    · exact fun hx => b64Digit_ne_colon _ (by omega) hx.symm
    · exact fun hx => b64Digit_ne_colon _ (by omega) hx.symm
    · exact fun hx => b64Digit_ne_colon _ (by omega) hx.symm

theorem utf8Bytes_lt (s : Str) : ∀ b ∈ utf8Bytes s, b < 256 := by
  intro b hb
  simp only [utf8Bytes, List.mem_flatten, List.mem_map] at hb
  obtain ⟨l, ⟨c, _, rfl⟩, hbl⟩ := hb
  exact utf8EncodeChar_lt c b hbl

theorem bufFromBase64_bufToBase64 (s : Str) : bufFromBase64 (bufToBase64 s) = s := by
  unfold bufFromBase64 bufToBase64
  rw [b64Decode_b64Encode _ (utf8Bytes_lt s), utf8Decode_encode]
  simp [List.map_map, Function.comp_def, Char.ofNat_toNat]

theorem bufToBase64_no_colon (s : Str) : ':' ∉ bufToBase64 s :=
  b64Encode_no_colon _ (utf8Bytes_lt s)

theorem lookupAssoc_setAssoc_self {α : Type} (k : Str) (v : α) (l : List (Str × α)) :
    lookupAssoc k (setAssoc k v l) = some v := by
  induction l with
  | nil => simp [setAssoc, lookupAssoc]
  | cons kv rest ih =>
    obtain ⟨k', v'⟩ := kv
    by_cases h : k' = k
    · simp [setAssoc, lookupAssoc, h]
    · simp [setAssoc, lookupAssoc, h, ih]

theorem lookupAssoc_setAssoc_ne {α : Type} (k k' : Str) (v : α) (l : List (Str × α))
    (h : k' ≠ k) : lookupAssoc k' (setAssoc k v l) = lookupAssoc k' l := by
  induction l with
  | nil => simp [setAssoc, lookupAssoc, Ne.symm h]
  | cons kv rest ih =>
    obtain ⟨k₀, v₀⟩ := kv
    by_cases h0 : k₀ = k
    · subst h0
      simp [setAssoc, lookupAssoc, Ne.symm h]
    · simp only [setAssoc, if_neg h0, lookupAssoc]
      split
      · rfl
      · exact ih

theorem sameReactionState_refl (r : MessageReaction) : sameReactionState r r :=
  ⟨rfl, rfl, fun _ => Iff.rfl⟩

theorem optRelSame_refl (o : Option MessageReaction) : optRelSame o o := by
  cases o with
  | none => trivial
  | some r => exact sameReactionState_refl r

theorem sameAggregate_refl (m : ChatMessage) : sameAggregate m m :=
  ⟨rfl, fun _ => optRelSame_refl _⟩

theorem toggleReaction_twice (sender my : Str) (r : MessageReaction) :
    sameReactionState (toggleReaction sender my (toggleReaction sender my r)) r := by
  by_cases hA : sender ∈ r.reactors
  · have hcount : (toggleReaction sender my r).count = r.count - 1 := by
      simp only [toggleReaction, if_pos hA]
    have hreact : (toggleReaction sender my r).reactors = r.reactors.filter (· ≠ sender) := by
      simp only [toggleReaction, if_pos hA]
    have hme : (toggleReaction sender my r).reactedByMe =
        (if sender = my then !r.reactedByMe else r.reactedByMe) := rfl
    have hA2 : ¬ sender ∈ (toggleReaction sender my r).reactors := by
      rw [hreact]
      simp [List.mem_filter]
    refine ⟨?_, ?_, ?_⟩
    · show (if sender ∈ (toggleReaction sender my r).reactors then _ - 1 else _ + 1) =
        r.count
      rw [if_neg hA2, hcount]
      omega
    · show (if sender = my then !(toggleReaction sender my r).reactedByMe
        else (toggleReaction sender my r).reactedByMe) = r.reactedByMe
      rw [hme]
      by_cases hs : sender = my <;> simp [hs]
    · intro x
      show x ∈ (if sender ∈ (toggleReaction sender my r).reactors then _ else _) ↔ _
      rw [if_neg hA2, hreact]
      simp only [List.mem_append, List.mem_filter, List.mem_singleton,
        decide_eq_true_eq]
      constructor
      · rintro (⟨hx, _⟩ | rfl)
        · exact hx
        · exact hA
      · intro hx
        by_cases hxs : x = sender
        · exact Or.inr hxs
        · exact Or.inl ⟨hx, hxs⟩
  · have hcount : (toggleReaction sender my r).count = r.count + 1 := by
      simp only [toggleReaction, if_neg hA]
    have hreact : (toggleReaction sender my r).reactors = r.reactors ++ [sender] := by
      simp only [toggleReaction, if_neg hA]
    have hme : (toggleReaction sender my r).reactedByMe =
        (if sender = my then !r.reactedByMe else r.reactedByMe) := rfl
    have hA2 : sender ∈ (toggleReaction sender my r).reactors := by
      rw [hreact]
      simp
    refine ⟨?_, ?_, ?_⟩
    · show (if sender ∈ (toggleReaction sender my r).reactors then _ - 1 else _ + 1) =
        r.count
      rw [if_pos hA2, hcount]
      omega
    · show (if sender = my then !(toggleReaction sender my r).reactedByMe
        else (toggleReaction sender my r).reactedByMe) = r.reactedByMe
      rw [hme]
      by_cases hs : sender = my <;> simp [hs]
    · intro x
      show x ∈ (if sender ∈ (toggleReaction sender my r).reactors then
          (toggleReaction sender my r).reactors.filter (· ≠ sender) else _) ↔ _
      rw [if_pos hA2, hreact]
      simp only [List.filter_append, List.mem_append, List.mem_filter,
        decide_eq_true_eq]
      constructor
      · rintro (⟨hx, _⟩ | hx)
        · exact hx
        · simp at hx
      · intro hx
        refine Or.inl ⟨hx, fun hxs => hA (hxs ▸ hx)⟩

theorem applyReactionTo_id (sender my : Str) (em tid : Option Str) (msg : ChatMessage) :
    (applyReactionTo sender my em tid msg).id = msg.id := by
  rw [applyReactionTo.eq_def]
  split
  · rfl
  · split
    · rfl
    · split <;> rfl

theorem applyReactionTo_eq_of_ne (sender my : Str) (em tid : Option Str)
    (msg : ChatMessage) (hT : tid ≠ some msg.id) :
    applyReactionTo sender my em tid msg = msg := by
  rw [applyReactionTo.eq_def, if_pos hT]

theorem applyReactionTo_none_emoji (sender my : Str) (tid : Option Str)
    (msg : ChatMessage) (hT : ¬ tid ≠ some msg.id) :
    applyReactionTo sender my none tid msg = msg := by
  rw [applyReactionTo.eq_def, if_neg hT]

theorem applyReactionTo_no_entry (sender my : Str) (e : Str) (tid : Option Str)
    (msg : ChatMessage) (hT : ¬ tid ≠ some msg.id)
    (hL : lookupAssoc e msg.reactions = none) :
    applyReactionTo sender my (some e) tid msg = msg := by
  rw [applyReactionTo.eq_def, if_neg hT]
  simp only [hL]

theorem applyReactionTo_found (sender my : Str) (e : Str) (tid : Option Str)
    (msg : ChatMessage) (r : MessageReaction) (hT : ¬ tid ≠ some msg.id)
    (hL : lookupAssoc e msg.reactions = some r) :
    applyReactionTo sender my (some e) tid msg =
      { msg with reactions := setAssoc e (toggleReaction sender my r) msg.reactions } := by
  rw [applyReactionTo.eq_def, if_neg hT]
  simp only [hL]

theorem applyReactionTo_twice (sender my : Str) (em tid : Option Str) (msg : ChatMessage) :
    sameAggregate (applyReactionTo sender my em tid (applyReactionTo sender my em tid msg))
      msg := by
  by_cases hT : tid ≠ some msg.id
  · rw [applyReactionTo_eq_of_ne _ _ _ _ _ hT, applyReactionTo_eq_of_ne _ _ _ _ _ hT]
    exact sameAggregate_refl msg
  · cases em with
    | none =>
      rw [applyReactionTo_none_emoji _ _ _ _ hT, applyReactionTo_none_emoji _ _ _ _ hT]
      exact sameAggregate_refl msg
    | some e =>
      cases hL : lookupAssoc e msg.reactions with
      | none =>
        rw [applyReactionTo_no_entry _ _ _ _ _ hT hL,
          applyReactionTo_no_entry _ _ _ _ _ hT hL]
        exact sameAggregate_refl msg
      | some existing =>
        rw [applyReactionTo_found _ _ _ _ _ _ hT hL]
        rw [applyReactionTo_found sender my e tid
          ({ msg with
             reactions := setAssoc e (toggleReaction sender my existing) msg.reactions })
          (toggleReaction sender my existing) hT (lookupAssoc_setAssoc_self _ _ _)]
        refine ⟨rfl, fun e' => ?_⟩
        by_cases he : e' = e
        · subst he
          show optRelSame (lookupAssoc e' _) _
          rw [lookupAssoc_setAssoc_self, hL]
          exact toggleReaction_twice sender my existing
        · show optRelSame (lookupAssoc e' _) _
          rw [lookupAssoc_setAssoc_ne _ _ _ _ he, lookupAssoc_setAssoc_ne _ _ _ _ he]
          exact optRelSame_refl _

/-- C6: applying the same reaction (same sender, target and emoji) twice in
succession with `applyReaction` returns every message's aggregate reaction
state (count, own-toggle flag, reactor set) to its original value. -/
theorem c6_reaction_toggle_involution (messages : List ChatMessage) (raw : RawMsg)
    (my : Str) :
    List.Forall₂ sameAggregate (applyReaction (applyReaction messages raw my) raw my)
      messages := by
  have hrefl : List.Forall₂ sameAggregate messages messages :=
    List.forall₂_same.mpr fun m _ => sameAggregate_refl m
  cases hc : raw.content with
  | err => simp only [applyReaction.eq_def, hc]; exact hrefl
  | nullish => simp only [applyReaction.eq_def, hc]; exact hrefl
  | ok content =>
    simp only [applyReaction.eq_def, hc]
    by_cases hR : startsWithS content reactTag = true
    · rw [if_neg (by simpa using hR), if_neg (by simpa using hR), List.map_map,
        List.forall₂_map_left_iff]
      exact List.forall₂_same.mpr fun m _ => applyReactionTo_twice _ _ _ _ m
    · rw [if_pos (by simpa using hR), if_pos (by simpa using hR)]
      exact hrefl

theorem frameRel_refl (t : Option Str) (m : ChatMessage) : frameRel t m m :=
  ⟨rfl, rfl, rfl, rfl, rfl, rfl, rfl, rfl, fun _ => rfl⟩

theorem applyReactionTo_frame (sender my : Str) (em tid : Option Str) (m : ChatMessage) :
    frameRel tid (applyReactionTo sender my em tid m) m := by
  by_cases hT : tid ≠ some m.id
  · rw [applyReactionTo_eq_of_ne _ _ _ _ _ hT]
    exact frameRel_refl tid m
  · cases em with
    | none =>
      rw [applyReactionTo_none_emoji _ _ _ _ hT]
      exact frameRel_refl tid m
    | some e =>
      cases hL : lookupAssoc e m.reactions with
      | none =>
        rw [applyReactionTo_no_entry _ _ _ _ _ hT hL]
        exact frameRel_refl tid m
      | some existing =>
        rw [applyReactionTo_found _ _ _ _ _ _ hT hL]
        exact ⟨rfl, rfl, rfl, rfl, rfl, rfl, rfl, rfl, fun hne => absurd hne hT⟩

/-- C10: `applyReaction` modifies at most the `reactions` field of the
message whose id equals the parsed target id; every other message is
returned unchanged, all other fields of the target are unchanged, and the
list's length and order are preserved (the result is pointwise related to
the input). -/
theorem c10_reaction_frame (messages : List ChatMessage) (raw : RawMsg) (my : Str) :
    List.Forall₂ (frameRel (parsedTargetId raw)) (applyReaction messages raw my)
      messages := by
  cases hc : raw.content with
  | err =>
    simp only [applyReaction.eq_def, hc]
    exact List.forall₂_same.mpr fun m _ => frameRel_refl _ m
  | nullish =>
    simp only [applyReaction.eq_def, hc]
    exact List.forall₂_same.mpr fun m _ => frameRel_refl _ m
  | ok content =>
    simp only [applyReaction.eq_def, hc]
    by_cases hR : startsWithS content reactTag = true
    · have htgt : parsedTargetId raw = (splitOnC ':' content).get? 2 := by
        simp only [parsedTargetId, hc]
        rw [if_pos hR]
      rw [if_neg (by simpa using hR), htgt, List.forall₂_map_left_iff]
      exact List.forall₂_same.mpr fun m _ => applyReactionTo_frame _ _ _ _ m
    · rw [if_pos (by simpa using hR)]
      exact List.forall₂_same.mpr fun m _ => frameRel_refl _ m

theorem listMapId {α : Type} (l : List α) (f : α → α) (h : ∀ x ∈ l, f x = x) :
    l.map f = l := by
  induction l with
  | nil => rfl
  | cons x xs ih =>
    rw [List.map_cons, h x (by simp), ih fun y hy => h y (by simp [hy])]

/-- C8: `applyReaction` is a total no-op both when the parsed target id
matches no message in the list and when the parsed emoji is not in the
configured reaction set (given that every message's reaction record only
holds configured emojis, as `buildEmptyReactions` and the optimistic empty
record guarantee); in both cases the list is returned unchanged. -/
theorem c8_reaction_noop (messages : List ChatMessage) (raw : RawMsg) (my : Str) :
    ((∀ m ∈ messages, parsedTargetId raw ≠ some m.id) →
      applyReaction messages raw my = messages) ∧
    ((∀ m ∈ messages, ∀ e r, lookupAssoc e m.reactions = some r → e ∈ REACTIONS) →
      (∀ em, parsedEmoji raw = some em → em ∉ REACTIONS) →
      applyReaction messages raw my = messages) := by
  cases hc : raw.content with
  | err => refine ⟨fun _ => ?_, fun _ _ => ?_⟩ <;> simp [applyReaction.eq_def, hc]
  | nullish => refine ⟨fun _ => ?_, fun _ _ => ?_⟩ <;> simp [applyReaction.eq_def, hc]
  | ok content =>
    by_cases hR : startsWithS content reactTag = true
    · have htgt : parsedTargetId raw = (splitOnC ':' content).get? 2 := by
        simp only [parsedTargetId, hc, if_pos hR]
      have hemj : parsedEmoji raw = (splitOnC ':' content).get? 1 := by
        simp only [parsedEmoji, hc, if_pos hR]
      constructor
      · intro hmiss
        simp only [applyReaction.eq_def, hc]
        rw [if_neg (by simpa using hR)]
        refine listMapId _ _ fun m hm => ?_
        refine applyReactionTo_eq_of_ne _ _ _ _ _ ?_
        rw [← htgt]
        exact hmiss m hm
      · intro hkeys hemoji
        simp only [applyReaction.eq_def, hc]
        rw [if_neg (by simpa using hR)]
        refine listMapId _ _ fun m hm => ?_
        by_cases hT : (splitOnC ':' content).get? 2 ≠ some m.id
        · exact applyReactionTo_eq_of_ne _ _ _ _ _ hT
        · cases hE : (splitOnC ':' content).get? 1 with
          | none => exact applyReactionTo_none_emoji _ _ _ _ hT
          | some e =>
            cases hL : lookupAssoc e m.reactions with
            | none => exact applyReactionTo_no_entry _ _ _ _ _ hT hL
            | some r =>
              exact absurd (hkeys m hm e r hL) (hemoji e (by rw [hemj, hE]))
    · constructor <;>
        · intro _
          try intro _
          simp only [applyReaction.eq_def, hc]
          rw [if_pos (by simpa using hR)]

theorem length_filter_ne_nodup (l : List Str) (a : Str) (hn : l.Nodup) (ha : a ∈ l) :
    (l.filter (· ≠ a)).length + 1 = l.length := by
  induction l with
  | nil => cases ha
  | cons x xs ih =>
    rw [List.nodup_cons] at hn
    by_cases hx : x = a
    · subst hx
      have hxs : List.filter (fun b => decide (b ≠ x)) xs = xs := by
        apply List.filter_eq_self.mpr
        intro b hb
        simp only [decide_eq_true_eq]
        exact fun hbx => hn.1 (hbx ▸ hb)
      rw [List.filter_cons_of_neg (by simp), hxs, List.length_cons]
    · have ha' : a ∈ xs := by
        rcases List.mem_cons.mp ha with h | h
        · exact absurd h.symm hx
        · exact h
      rw [List.filter_cons_of_pos (by simpa using hx), List.length_cons,
        List.length_cons]
      have := ih hn.2 ha'
      omega

theorem toggleReaction_wf (sender my : Str) (r : MessageReaction)
    (h : r.reactors.Nodup ∧ r.count = (r.reactors.length : Int) ∧ 0 ≤ r.count) :
    (toggleReaction sender my r).reactors.Nodup ∧
      (toggleReaction sender my r).count =
        ((toggleReaction sender my r).reactors.length : Int) ∧
      0 ≤ (toggleReaction sender my r).count := by
  obtain ⟨hnd, hcnt, _⟩ := h
  by_cases hA : sender ∈ r.reactors
  · have hre : (toggleReaction sender my r).reactors = r.reactors.filter (· ≠ sender) := by
      simp only [toggleReaction, if_pos hA]
    have hco : (toggleReaction sender my r).count = r.count - 1 := by
      simp only [toggleReaction, if_pos hA]
    have hlen := length_filter_ne_nodup r.reactors sender hnd hA
    refine ⟨?_, ?_, ?_⟩
    · rw [hre]; exact hnd.filter _
    · rw [hre, hco, hcnt]
      omega
    · rw [hco, hcnt]
      omega
  · have hre : (toggleReaction sender my r).reactors = r.reactors ++ [sender] := by
      simp only [toggleReaction, if_neg hA]
    have hco : (toggleReaction sender my r).count = r.count + 1 := by
      simp only [toggleReaction, if_neg hA]
    refine ⟨?_, ?_, ?_⟩
    · rw [hre]
      refine List.nodup_append.mpr ⟨hnd, List.nodup_singleton sender, ?_⟩
      intro x hx hx'
      have hxs : x = sender := by simpa using hx'
      exact hA (hxs ▸ hx)
    · rw [hre, hco, hcnt]
      simp
    · rw [hco, hcnt]
      positivity

theorem applyReactionTo_wf (sender my : Str) (em tid : Option Str) (m : ChatMessage)
    (h : wfMsg m) : wfMsg (applyReactionTo sender my em tid m) := by
  by_cases hT : tid ≠ some m.id
  · rw [applyReactionTo_eq_of_ne _ _ _ _ _ hT]; exact h
  · cases em with
    | none => rw [applyReactionTo_none_emoji _ _ _ _ hT]; exact h
    | some e =>
      cases hL : lookupAssoc e m.reactions with
      | none => rw [applyReactionTo_no_entry _ _ _ _ _ hT hL]; exact h
      | some existing =>
        rw [applyReactionTo_found _ _ _ _ _ _ hT hL]
        intro e' r' hr'
        by_cases he : e' = e
        · subst he
          rw [lookupAssoc_setAssoc_self] at hr'
          cases hr'
          exact toggleReaction_wf sender my existing (h e' existing hL)
        · rw [lookupAssoc_setAssoc_ne _ _ _ _ he] at hr'
          exact h e' r' hr'

theorem applyReaction_wf (messages : List ChatMessage) (raw : RawMsg) (my : Str)
    (h : ∀ m ∈ messages, wfMsg m) : ∀ m ∈ applyReaction messages raw my, wfMsg m := by
  cases hc : raw.content with
  | err => simpa only [applyReaction.eq_def, hc] using h
  | nullish => simpa only [applyReaction.eq_def, hc] using h
  | ok content =>
    simp only [applyReaction.eq_def, hc]
    by_cases hR : startsWithS content reactTag = true
    · rw [if_neg (by simpa using hR)]
      intro m hm
      rcases List.mem_map.mp hm with ⟨x, hx, rfl⟩
      exact applyReactionTo_wf _ _ _ _ x (h x hx)
    · rw [if_pos (by simpa using hR)]
      exact h

/-- C7: starting from messages whose reaction states are the zeroed records
built at decode time (or the optimistic empty record) and applying any
sequence of `applyReaction` calls, every reaction entry keeps a
duplicate-free reactor list whose length the count equals, and the count is
never negative. -/
theorem c7_reaction_count_invariant (messages : List ChatMessage) (raws : List RawMsg)
    (my : Str)
    (h : ∀ m ∈ messages, m.reactions = buildEmptyReactions ∨ m.reactions = []) :
    ∀ m ∈ raws.foldl (fun st raw => applyReaction st raw my) messages, wfMsg m := by
  have hwf : ∀ m ∈ messages, wfMsg m := by
    intro m hm e r hr
    rcases h m hm with hh | hh <;> rw [hh] at hr
    · simp only [buildEmptyReactions, REACTIONS, List.map_cons, List.map_nil,
        lookupAssoc] at hr
      split at hr
      · cases hr
        exact ⟨List.nodup_nil, by simp, by simp⟩
      · cases hr
    · simp [lookupAssoc] at hr
  clear h
  induction raws generalizing messages with
  | nil => simpa using hwf
  | cons raw raws ih =>
    rw [List.foldl_cons]
    exact ih _ (applyReaction_wf messages raw my hwf)

theorem anyId_eq_false (messages : List ChatMessage) (i : Str)
    (h : ∀ x ∈ messages, x.id ≠ i) :
    (messages.any fun x => decide (x.id = i)) = false := by
  rw [List.any_eq_false]
  intro x hx
  simpa using h x hx

theorem enrichWithNft_preserves (cache : List (Str × CachedProfile)) (msg : ChatMessage) :
    (enrichWithNft cache msg).id = msg.id ∧
    (enrichWithNft cache msg).senderAddress = msg.senderAddress ∧
    (enrichWithNft cache msg).content = msg.content ∧
    (enrichWithNft cache msg).status = msg.status := by
  rw [enrichWithNft.eq_def]
  split
  · exact ⟨rfl, rfl, rfl, rfl⟩
  · split
    · split
      · split
        · exact ⟨rfl, rfl, rfl, rfl⟩
        · exact ⟨rfl, rfl, rfl, rfl⟩
      · exact ⟨rfl, rfl, rfl, rfl⟩
    · exact ⟨rfl, rfl, rfl, rfl⟩

theorem decodeMessage_some_content (raw : RawMsg) (my : Str) (m : ChatMessage)
    (h : decodeMessage raw my = some m) :
    ∃ s, raw.content = .ok s ∧ s ≠ [] ∧ startsWithS s reactTag = false ∧
      startsWithS s profileTag = false ∧ startsWithS s eventTag = false := by
  cases hc : raw.content with
  | err => rw [decodeMessage.eq_def, hc] at h; cases h
  | nullish => rw [decodeMessage.eq_def, hc] at h; cases h
  | ok s =>
    simp only [decodeMessage.eq_def, hc] at h
    by_cases h0 : s = []
    · rw [if_pos h0] at h; cases h
    rw [if_neg h0] at h
    by_cases h1 : startsWithS s reactTag = true
    · rw [if_pos h1] at h; cases h
    rw [if_neg h1] at h
    by_cases h2 : startsWithS s profileTag = true
    · rw [if_pos h2] at h; cases h
    rw [if_neg h2] at h
    by_cases h3 : startsWithS s eventTag = true
    · rw [if_pos h3] at h; cases h
    exact ⟨s, rfl, h0, Bool.eq_false_iff.mpr h1, Bool.eq_false_iff.mpr h2,
      Bool.eq_false_iff.mpr h3⟩

/-- C5: during resync, a decoded message from the local user whose transport
id is not already present only ever upgrades the first matching optimistic
`opt-` entry (same sender, same content) in place; with no such entry the
list is returned unchanged, and in every case the length is preserved — own
messages are never appended by this path. -/
theorem c5_resync_own_upgrade_only (messages : List ChatMessage) (raw : RawMsg)
    (my : Str) (cache : List (Str × CachedProfile)) (m : ChatMessage)
    (hdec : decodeMessage raw my = some m) (hself : m.senderAddress = my)
    (hfresh : ∀ x ∈ messages, x.id ≠ m.id) :
    (syncDeliver messages raw my cache).length = messages.length ∧
    (messages.findIdx? (isOptMatch (enrichWithNft cache m)) = none →
      syncDeliver messages raw my cache = messages) ∧
    (∀ j, messages.findIdx? (isOptMatch (enrichWithNft cache m)) = some j →
      syncDeliver messages raw my cache =
        messages.set j (mkUpgraded (enrichWithNft cache m) (messages.getD j default))) := by
  have hup : syncDeliver messages raw my cache =
      upgradeOwnMessage messages (enrichWithNft cache m) := by
    simp only [syncDeliver.eq_def, hdec]
    rw [if_neg (by simp [anyId_eq_false messages m.id hfresh]), if_pos hself]
  have hfresh' : (messages.any fun x =>
      decide (x.id = (enrichWithNft cache m).id)) = false := by
    rw [(enrichWithNft_preserves cache m).1]
    exact anyId_eq_false messages m.id hfresh
  rw [hup, upgradeOwnMessage]
  rw [if_neg (by simp [hfresh'])]
  refine ⟨?_, ?_, ?_⟩
  · cases hidx : messages.findIdx? (isOptMatch (enrichWithNft cache m)) with
    | none => rfl
    | some j => exact List.length_set messages j _
  · intro hidx
    rw [hidx]
  · intro j hidx
    rw [hidx]

/-- Counterexample to C4 as stated: the transport echo of the local user's
own send arrives on the live stream; its id `"x1"` is not in the list, an
optimistic entry with status Sending, the same sender and the same body is
present — yet the stream handler returns with the list unchanged (own
messages are skipped before any merge), so the optimistic entry is neither
replaced nor marked Sent by this path. -/
theorem c4_self_echo_counterexample :
    (decodeMessage sampleEcho sampleMy).map
        (fun m => (m.id, m.senderAddress, m.content)) =
      some (['x', '1'], sampleMy, sampleBody) ∧
    sampleOpt.id = ['o', 'p', 't', '-', '1'] ∧
    sampleOpt.senderAddress = sampleMy ∧
    sampleOpt.content = sampleBody ∧
    sampleOpt.status = some MsgStatus.sending ∧
    ingestLive [sampleOpt] sampleEcho sampleMy [] = [sampleOpt] := by
  refine ⟨by decide, by decide, by decide, by decide, by decide, by decide⟩

/-- C4 amended: live-stream messages whose decoded sender is the local user
are dropped before merging; for another sender's message whose transport id
is not yet present, `mergeMessage` replaces the first `opt-`-prefixed entry
with the same sender and body (regardless of its status) in place with the
confirmed message — preserving the optimistic entry's `senderNft` and
marking it Sent, as `mkUpgraded` spells out — and does not append. -/
theorem c4_live_merge_amended (messages : List ChatMessage) (raw : RawMsg) (my : Str)
    (cache : List (Str × CachedProfile)) (msg : ChatMessage)
    (hdec : decodeMessage raw my = some msg) :
    (msg.senderAddress = my → ingestLive messages raw my cache = messages) ∧
    (msg.senderAddress ≠ my → (∀ x ∈ messages, x.id ≠ msg.id) →
      ∀ j, messages.findIdx? (isOptMatch (enrichWithNft cache msg)) = some j →
        ingestLive messages raw my cache =
          messages.set j (mkUpgraded (enrichWithNft cache msg) (messages.getD j default)) ∧
        (ingestLive messages raw my cache).length = messages.length) := by
  obtain ⟨s, hs, h0, h1, h2, h3⟩ := decodeMessage_some_content raw my msg hdec
  have hbase : ingestLive messages raw my cache =
      (if msg.senderAddress = my then messages
       else mergeMessage messages (enrichWithNft cache msg)) := by
    simp only [ingestLive.eq_def, hs]
    rw [if_neg (by simp [h1]), if_neg (by simp [h2]), if_neg (by simp [h3]), hdec]
  constructor
  · intro hself
    rw [hbase, if_pos hself]
  · intro hother hfresh j hidx
    have hfresh' : (messages.any fun x =>
        decide (x.id = (enrichWithNft cache msg).id)) = false := by
      rw [(enrichWithNft_preserves cache msg).1]
      exact anyId_eq_false messages msg.id hfresh
    have hmerge : mergeMessage messages (enrichWithNft cache msg) =
        messages.set j (mkUpgraded (enrichWithNft cache msg) (messages.getD j default)) := by
      rw [mergeMessage, if_neg (by simp [hfresh']), hidx]
    rw [hbase, if_neg hother, hmerge]
    exact ⟨rfl, List.length_set messages j _⟩

/-- Counterexample to C3 as stated: the unknown payload `"FUTURE_KIND:xyz"`
does not decode to null — it decodes to a displayable text message (the
bare-content compatibility path of `parseContent`), and the live-stream
handler adds it to an empty message list. -/
theorem c3_unknown_kind_counterexample :
    decodeMessage futureRaw sampleMy ≠ none ∧
    (decodeMessage futureRaw sampleMy).map (fun m => m.content) =
      some ['F', 'U', 'T', 'U', 'R', 'E', '_', 'K', 'I', 'N', 'D', ':', 'x', 'y', 'z'] ∧
    (ingestLive [] futureRaw sampleMy []).length = 1 := by
  refine ⟨by decide, by decide, by decide⟩

/-- C3 amended: `decodeMessage` returns null exactly when `content()` throws,
returns a falsy non-string, returns the empty string, or returns a string
carrying one of the recognized system tags (`REACT:`, `PROFILE_UPDATE:`,
`EVENT:`); every other string payload — including unknown tags such as
`"FUTURE_KIND:xyz"` — decodes to a displayable text message, never throwing. -/
theorem c3_decode_none_characterization (raw : RawMsg) (my : Str) :
    decodeMessage raw my = none ↔
      raw.content = .err ∨ raw.content = .nullish ∨ raw.content = .ok [] ∨
      ∃ s, raw.content = .ok s ∧
        (startsWithS s reactTag = true ∨ startsWithS s profileTag = true ∨
          startsWithS s eventTag = true) := by
  cases hc : raw.content with
  | err => simp [decodeMessage.eq_def, hc]
  | nullish => simp [decodeMessage.eq_def, hc]
  | ok s =>
    rw [decodeMessage.eq_def, hc]
    simp only [hc, reduceCtorEq, false_or, RawContent.ok.injEq, exists_eq_left']
    by_cases h0 : s = []
    · simp [if_pos h0, h0]
    rw [if_neg h0]
    by_cases h1 : startsWithS s reactTag = true
    · simp [if_pos h1, h1]
    rw [if_neg h1]
    by_cases h2 : startsWithS s profileTag = true
    · simp [if_pos h2, h2]
    rw [if_neg h2]
    by_cases h3 : startsWithS s eventTag = true
    · simp [if_pos h3, h3]
    rw [if_neg h3]
    simp only [h1, h2, h3, or_self, iff_false, false_or]
    constructor
    · intro hcontra
      revert hcontra
      split
      · simp
      · split
        · simp
        · simp
    · intro hcontra
      simp [h0, h1, h2, h3] at hcontra

/-- C9 evaluation at the failing input: after `cacheProfile` records the
username `"monke"` for a sender, a second `cacheProfile` call with the
partial update the PROFILE_UPDATE handler builds for all-empty payload
fields (every key present with `undefined`) erases it: `getCachedProfile`
afterwards returns `undefined` for the username instead of the previously
known value, because JS object spread copies keys holding `undefined`. -/
theorem c9_profile_field_erasure :
    (getCachedProfile (cacheProfile [] dev1 profileSetName) dev1).map
        CachedProfile.username = some (PField.val ['m', 'o', 'n', 'k', 'e']) ∧
    (getCachedProfile
        (cacheProfile (cacheProfile [] dev1 profileSetName) dev1 profileEmptyBroadcast)
        dev1).map CachedProfile.username = some PField.undef := by
  exact ⟨by decide, by decide⟩

theorem startsWithS_self_append (tag x : Str) : startsWithS (tag ++ x) tag = true :=
  List.isPrefixOf_iff_prefix.mpr (List.prefix_append tag x)

theorem parseContent_wrapped (u c : Str) (hu : ':' ∉ u) :
    parseContent (msgTag ++ (u ++ ':' :: c)) = (some u, c) := by
  unfold parseContent
  rw [if_pos (startsWithS_self_append msgTag (u ++ ':' :: c))]
  rw [show (msgTag ++ (u ++ ':' :: c)).drop 4 = u ++ ':' :: c from List.drop_left msgTag _]
  rw [indexOfC_append ':' u c hu]
  dsimp only
  rw [List.take_left]
  rw [show u ++ ':' :: c = (u ++ [':']) ++ c by simp]
  rw [show u.length + 1 = (u ++ [':']).length by simp]
  rw [List.drop_left]

theorem parseContent_bare (c : Str) (hc : startsWithS c msgTag = false) :
    parseContent c = (none, c) := by
  unfold parseContent
  rw [if_neg (by simp [hc])]

theorem decode_text_roundtrip (rid sender : Str) (ns : Int) (my : Str)
    (u : Option Str) (c : Str) (hu : validName u) (hb : plainBody c)
    (hne : u = none → c ≠ []) :
    decodeMessage ⟨rid, sender, ns, .ok (packMessage c u)⟩ my =
      some ⟨rid, sender, u, none, c, ns / 1000000, buildEmptyReactions, none,
        some .sent⟩ := by
  obtain ⟨hrc, hpf, hev, hmg, hr2, hr1⟩ := hb
  cases u with
  | none =>
    have hpk : packMessage c none = c := rfl
    simp only [decodeMessage.eq_def, hpk]
    rw [if_neg (hne rfl), if_neg (by simp [hrc]), if_neg (by simp [hpf]),
      if_neg (by simp [hev]), parseContent_bare c hmg]
    dsimp only
    rw [if_neg (by simp [hr2]), if_neg (by simp [hr1])]
  | some us =>
    obtain ⟨hus, hucol⟩ := hu
    have hpk : packMessage c (some us) = msgTag ++ (us ++ ':' :: c) := by
      simp [packMessage, if_neg hus, List.append_assoc]
    simp only [decodeMessage.eq_def, hpk]
    rw [if_neg (by simp [msgTag]),
      if_neg (by simp [show startsWithS (msgTag ++ (us ++ ':' :: c)) reactTag = false from rfl]),
      if_neg (by simp [show startsWithS (msgTag ++ (us ++ ':' :: c)) profileTag = false from rfl]),
      if_neg (by simp [show startsWithS (msgTag ++ (us ++ ':' :: c)) eventTag = false from rfl]),
      parseContent_wrapped us c hucol]
    dsimp only
    rw [if_neg (by simp [hr2]), if_neg (by simp [hr1])]

theorem decode_reply_roundtrip (rid sender : Str) (ns : Int) (my : Str)
    (u : Option Str) (target : ChatMessage) (rc : Str) (hu : validName u)
    (htu : validName target.senderUsername) (hti : ':' ∉ target.id)
    (hts : ':' ∉ target.senderAddress) :
    decodeMessage ⟨rid, sender, ns, .ok (packReply target rc u)⟩ my =
      some ⟨rid, sender, u, none, rc, ns / 1000000, buildEmptyReactions,
        some ⟨target.id, target.content, target.senderAddress, target.senderUsername⟩,
        some .sent⟩ := by
  have hinner : replyV2Tag ++ target.id ++ ':' :: target.senderAddress ++
      ':' :: (target.senderUsername.getD []) ++ ':' :: bufToBase64 target.content ++
      ':' :: rc =
      replyV2Tag ++ (target.id ++ ':' :: (target.senderAddress ++
        ':' :: ((target.senderUsername.getD []) ++ ':' :: (bufToBase64 target.content ++
          ':' :: rc)))) := by
    simp [List.append_assoc]
  have hsplit : splitOnC ':' (target.id ++ ':' :: (target.senderAddress ++
      ':' :: ((target.senderUsername.getD []) ++ ':' :: (bufToBase64 target.content ++
        ':' :: rc)))) =
      target.id :: target.senderAddress :: (target.senderUsername.getD []) ::
        bufToBase64 target.content :: splitOnC ':' rc := by
    rw [splitOnC_append ':' target.id _ hti, splitOnC_append ':' target.senderAddress _ hts,
      splitOnC_append ':' (target.senderUsername.getD []) _ (by
        cases htu' : target.senderUsername with
        | none => simp
        | some tu =>
          rw [htu'] at htu
          simpa using htu.2),
      splitOnC_append ':' (bufToBase64 target.content) _ (bufToBase64_no_colon _)]
  have hdrop : ∀ y : Str, (replyV2Tag ++ y).drop 8 = y := fun y =>
    show (replyV2Tag ++ y).drop replyV2Tag.length = y from List.drop_left _ _
  cases u with
  | none =>
    have hpk : packReply target rc none = replyV2Tag ++ (target.id ++ ':' ::
        (target.senderAddress ++ ':' :: ((target.senderUsername.getD []) ++
          ':' :: (bufToBase64 target.content ++ ':' :: rc)))) := by
      simp only [packReply, packMessage]
      simp [List.append_assoc]
    simp only [decodeMessage.eq_def, hpk]
    rw [if_neg (by simp [replyV2Tag]),
      if_neg (by
        simp [show startsWithS (replyV2Tag ++ (target.id ++ ':' ::
          (target.senderAddress ++ ':' :: ((target.senderUsername.getD []) ++
            ':' :: (bufToBase64 target.content ++ ':' :: rc))))) reactTag = false from rfl]),
      if_neg (by
        simp [show startsWithS (replyV2Tag ++ (target.id ++ ':' ::
          (target.senderAddress ++ ':' :: ((target.senderUsername.getD []) ++
            ':' :: (bufToBase64 target.content ++ ':' :: rc))))) profileTag = false from rfl]),
      if_neg (by
        simp [show startsWithS (replyV2Tag ++ (target.id ++ ':' ::
          (target.senderAddress ++ ':' :: ((target.senderUsername.getD []) ++
            ':' :: (bufToBase64 target.content ++ ':' :: rc))))) eventTag = false from rfl]),
      parseContent_bare (replyV2Tag ++ (target.id ++ ':' ::
        (target.senderAddress ++ ':' :: ((target.senderUsername.getD []) ++
          ':' :: (bufToBase64 target.content ++ ':' :: rc))))) rfl]
    dsimp only
    rw [if_pos (startsWithS_self_append replyV2Tag _)]
    rw [hdrop, hsplit]
    cases htu' : target.senderUsername with
    | none =>
      simp [joinC_splitOnC ':' rc, bufFromBase64_bufToBase64, jsOrNone]
    | some tu =>
      rw [htu'] at htu
      simp [joinC_splitOnC ':' rc, bufFromBase64_bufToBase64, jsOrNone, htu.1]
  | some us =>
    obtain ⟨hus, hucol⟩ := hu
    have hpk : packReply target rc (some us) = msgTag ++ (us ++ ':' ::
        (replyV2Tag ++ (target.id ++ ':' :: (target.senderAddress ++
          ':' :: ((target.senderUsername.getD []) ++
            ':' :: (bufToBase64 target.content ++ ':' :: rc)))))) := by
      simp only [packReply, packMessage]
      rw [if_neg hus]
      simp [List.append_assoc]
    simp only [decodeMessage.eq_def, hpk]
    rw [if_neg (by simp [msgTag]),
      if_neg (by
        simp [show startsWithS (msgTag ++ (us ++ ':' :: (replyV2Tag ++ (target.id ++
          ':' :: (target.senderAddress ++ ':' :: ((target.senderUsername.getD []) ++
            ':' :: (bufToBase64 target.content ++ ':' :: rc))))))) reactTag = false
          from rfl]),
      if_neg (by
        simp [show startsWithS (msgTag ++ (us ++ ':' :: (replyV2Tag ++ (target.id ++
          ':' :: (target.senderAddress ++ ':' :: ((target.senderUsername.getD []) ++
            ':' :: (bufToBase64 target.content ++ ':' :: rc))))))) profileTag = false
          from rfl]),
      if_neg (by
        simp [show startsWithS (msgTag ++ (us ++ ':' :: (replyV2Tag ++ (target.id ++
          ':' :: (target.senderAddress ++ ':' :: ((target.senderUsername.getD []) ++
            ':' :: (bufToBase64 target.content ++ ':' :: rc))))))) eventTag = false
          from rfl]),
      parseContent_wrapped us _ hucol]
    dsimp only
    rw [if_pos (startsWithS_self_append replyV2Tag _)]
    rw [hdrop, hsplit]
    cases htu' : target.senderUsername with
    | none =>
      simp [joinC_splitOnC ':' rc, bufFromBase64_bufToBase64, jsOrNone]
    | some tu =>
      rw [htu'] at htu
      simp [joinC_splitOnC ':' rc, bufFromBase64_bufToBase64, jsOrNone, htu.1]

/-- C2: for every valid envelope of every kind produced by the send paths
(text via `sendMessage`, current replies via `sendReply`'s REPLYv2 format,
both with or without the optional `MSG:<username>:` display-name wrapper),
decoding the encoded payload recovers the original display name, body, and —
for REPLYv2 — the quoted original text, target id and target sender.  The
legacy Reply format is not produced by any send path and stays lossy. -/
theorem c2_codec_roundtrip :
    (∀ (rid sender : Str) (ns : Int) (my : Str) (u : Option Str) (c : Str),
      validName u → plainBody c → (u = none → c ≠ []) →
      decodeMessage ⟨rid, sender, ns, .ok (packMessage c u)⟩ my =
        some ⟨rid, sender, u, none, c, ns / 1000000, buildEmptyReactions, none,
          some .sent⟩) ∧
    (∀ (rid sender : Str) (ns : Int) (my : Str) (u : Option Str)
      (target : ChatMessage) (rc : Str),
      validName u → validName target.senderUsername →
      ':' ∉ target.id → ':' ∉ target.senderAddress →
      decodeMessage ⟨rid, sender, ns, .ok (packReply target rc u)⟩ my =
        some ⟨rid, sender, u, none, rc, ns / 1000000, buildEmptyReactions,
          some ⟨target.id, target.content, target.senderAddress, target.senderUsername⟩,
          some .sent⟩) :=
  ⟨fun rid sender ns my u c hu hb hne =>
      decode_text_roundtrip rid sender ns my u c hu hb hne,
    fun rid sender ns my u target rc hu htu hti hts =>
      decode_reply_roundtrip rid sender ns my u target rc hu htu hti hts⟩

theorem findIdx?_middle (p : ChatMessage → Bool) (pre post : List ChatMessage)
    (e : ChatMessage) (hpre : ∀ x ∈ pre, p x = false) (he : p e = true) :
    ∀ i, List.findIdx? p (pre ++ e :: post) i = some (i + pre.length) := by
  induction pre with
  | nil => intro i; simp [List.findIdx?_cons, he]
  | cons a l ih =>
    intro i
    rw [List.cons_append, List.findIdx?_cons, if_neg (by simp [hpre a (by simp)])]
    rw [ih (fun x hx => hpre x (by simp [hx])) (i + 1)]
    simp
    omega

theorem set_middle {α : Type} (pre post : List α) (e v : α) :
    (pre ++ e :: post).set pre.length v = pre ++ v :: post := by
  induction pre with
  | nil => rfl
  | cons a l ih => simp [ih]

theorem getD_middle {α : Type} (pre post : List α) (e d : α) :
    (pre ++ e :: post).getD pre.length d = e := by
  induction pre with
  | nil => rfl
  | cons a l ih => simpa using ih

theorem isOptMatch_false_of_not (message m : ChatMessage)
    (h : ¬(m.senderAddress = message.senderAddress ∧ m.content = message.content)) :
    isOptMatch message m = false := by
  unfold isOptMatch
  by_cases h1 : m.senderAddress = message.senderAddress
  · by_cases h2 : m.content = message.content
    · exact absurd ⟨h1, h2⟩ h
    · simp [h2]
  · simp [h1]

/-- The live-stream handler reduced on a payload that decodes. -/
theorem ingestLive_decoded (messages : List ChatMessage) (raw : RawMsg) (my : Str)
    (cache : List (Str × CachedProfile)) (d : ChatMessage)
    (hdec : decodeMessage raw my = some d) :
    ingestLive messages raw my cache =
      (if d.senderAddress = my then messages
       else mergeMessage messages (enrichWithNft cache d)) := by
  obtain ⟨s, hs, h0, h1, h2, h3⟩ := decodeMessage_some_content raw my d hdec
  simp only [ingestLive.eq_def, hs]
  rw [if_neg (by simp [h1]), if_neg (by simp [h2]), if_neg (by simp [h3]), hdec]

/-- One resync delivery reduced on a payload that decodes. -/
theorem syncDeliver_decoded (messages : List ChatMessage) (raw : RawMsg) (my : Str)
    (cache : List (Str × CachedProfile)) (d : ChatMessage)
    (hdec : decodeMessage raw my = some d) :
    syncDeliver messages raw my cache =
      (if (messages.any fun x => decide (x.id = d.id)) = true then messages
       else if d.senderAddress = my then upgradeOwnMessage messages (enrichWithNft cache d)
       else mergeMessage messages (enrichWithNft cache d)) := by
  simp only [syncDeliver.eq_def, hdec]

theorem sendStep_shape
    (raw : RawMsg) (my : Str) (cache : List (Str × CachedProfile))
    (optId X body : Str) (d o : ChatMessage)
    (pre post : List ChatMessage)
    (hdec : decodeMessage raw my = some d)
    (hdm : d.senderAddress = my) (hdc : d.content = body) (hdi : d.id = X)
    (hoid : o.id = optId) (hoptTag : startsWithS optId optTag = true)
    (hos : o.senderAddress = my) (hoc : o.content = body)
    (hXopt : X ≠ optId)
    (hclean : ∀ x ∈ pre ++ post,
      ¬(x.senderAddress = my ∧ x.content = body) ∧ x.id ≠ optId ∧ x.id ≠ X) :
    ∀ (ev : SendEv) (e : ChatMessage), sendShape cache d o e →
      ∃ e1, sendStep raw my cache optId (pre ++ e :: post) ev = pre ++ e1 :: post ∧
        sendShape cache d o e1 ∧
        ((ev = .resolve ∨ sendShapeSent cache d o e) → sendShapeSent cache d o e1) := by
  have henr := enrichWithNft_preserves cache d
  have hupg_id : (upgO cache d o).id = X := by
    show (enrichWithNft cache d).id = X
    rw [henr.1, hdi]
  have hsentO_id : (sentO o).id = o.id := rfl
  have hsentO_sender : (sentO o).senderAddress = o.senderAddress := rfl
  have hsentO_content : (sentO o).content = o.content := rfl
  have hupg_sender : (upgO cache d o).senderAddress = my := by
    show (enrichWithNft cache d).senderAddress = my
    rw [henr.2.1, hdm]
  have hupg_content : (upgO cache d o).content = body := by
    show (enrichWithNft cache d).content = body
    rw [henr.2.2.1, hdc]
  -- the three shape candidates all carry the send's sender and content,
  -- their ids avoid the ids of the clean context, and the opt-shaped ones
  -- still carry the optimistic id
  have hshape_sender : ∀ e, sendShape cache d o e → e.senderAddress = my := by
    intro e he
    rcases he with he | he | he <;> rw [he]
    · exact hos
    · rw [hsentO_sender]; exact hos
    · exact hupg_sender
  have hshape_content : ∀ e, sendShape cache d o e → e.content = body := by
    intro e he
    rcases he with he | he | he <;> rw [he]
    · exact hoc
    · rw [hsentO_content]; exact hoc
    · exact hupg_content
  intro ev e he
  cases ev with
  | resolve =>
    have hbase : ∀ e1 : ChatMessage,
        updateMessageStatus (pre ++ e1 :: post) optId .sent =
          pre ++ (if e1.id = optId then { e1 with status := some .sent } else e1) ::
            post := by
      intro e1
      unfold updateMessageStatus
      rw [List.map_append, List.map_cons]
      rw [listMapId pre _ (fun x hx => by
        rw [if_neg (hclean x (by simp [hx])).2.1])]
      rw [listMapId post _ (fun x hx => by
        rw [if_neg (hclean x (by simp [hx])).2.1])]
    rcases he with he | he | he
    · refine ⟨sentO o, ?_, Or.inr (Or.inl rfl), fun _ => Or.inl rfl⟩
      show updateMessageStatus (pre ++ e :: post) optId .sent = _
      rw [he, hbase o, if_pos hoid]
      rfl
    · refine ⟨sentO o, ?_, Or.inr (Or.inl rfl), fun _ => Or.inl rfl⟩
      show updateMessageStatus (pre ++ e :: post) optId .sent = _
      rw [he, hbase (sentO o), if_pos (by rw [hsentO_id, hoid])]
      rfl
    · refine ⟨upgO cache d o, ?_, Or.inr (Or.inr rfl), fun _ => Or.inr rfl⟩
      show updateMessageStatus (pre ++ e :: post) optId .sent = _
      rw [he, hbase (upgO cache d o),
        if_neg (by rw [hupg_id]; exact hXopt)]
  | live =>
    refine ⟨e, ?_, he, ?_⟩
    · show ingestLive (pre ++ e :: post) raw my cache = _
      rw [ingestLive_decoded _ raw my cache d hdec, if_pos hdm]
    · intro h
      rcases h with h | h
      · cases h
      · exact h
  | syncd =>
    have hupgrade : ∀ e1 : ChatMessage, e1.id = optId → e1.senderAddress = my →
        e1.content = body → e1.senderNft = o.senderNft →
        syncDeliver (pre ++ e1 :: post) raw my cache = pre ++ upgO cache d o :: post := by
      intro e1 h1 h2 h3 h4
      rw [syncDeliver_decoded _ raw my cache d hdec]
      have hany : ((pre ++ e1 :: post).any fun x => decide (x.id = d.id)) = false := by
        apply anyId_eq_false
        intro x hx
        rw [hdi]
        rcases List.mem_append.mp hx with hx' | hx'
        · exact (hclean x (by simp [hx'])).2.2
        · rcases List.mem_cons.mp hx' with rfl | hx''
          · rw [h1]; exact fun hcon => hXopt hcon.symm
          · exact (hclean x (by simp [hx''])).2.2
      rw [if_neg (by simp [hany]), if_pos hdm]
      unfold upgradeOwnMessage
      rw [if_neg (by
        rw [henr.1]
        simp [hany])]
      rw [findIdx?_middle (isOptMatch (enrichWithNft cache d)) pre post e1
        (fun x hx => isOptMatch_false_of_not _ x (by
          have hcl := (hclean x (by simp [hx])).1
          rw [henr.2.1, henr.2.2.1, hdm, hdc]
          exact hcl))
        (by
          unfold isOptMatch
          rw [h1, henr.2.1, henr.2.2.1, hdm, hdc, h2, h3]
          simp [hoptTag]) 0]
      dsimp only
      rw [Nat.zero_add, getD_middle, set_middle]
      show pre ++ mkUpgraded (enrichWithNft cache d) e1 :: post = _
      unfold upgO mkUpgraded
      rw [h4]
    rcases he with he | he | he
    · refine ⟨upgO cache d o, ?_, Or.inr (Or.inr rfl), fun _ => Or.inr rfl⟩
      show syncDeliver (pre ++ e :: post) raw my cache = _
      rw [he]
      exact hupgrade o hoid hos hoc rfl
    · refine ⟨upgO cache d o, ?_, Or.inr (Or.inr rfl), fun _ => Or.inr rfl⟩
      show syncDeliver (pre ++ e :: post) raw my cache = _
      rw [he]
      exact hupgrade (sentO o) (by rw [hsentO_id, hoid])
        (by rw [hsentO_sender, hos]) (by rw [hsentO_content, hoc]) rfl
    · refine ⟨upgO cache d o, ?_, Or.inr (Or.inr rfl), fun _ => Or.inr rfl⟩
      show syncDeliver (pre ++ e :: post) raw my cache = _
      rw [he, syncDeliver_decoded _ raw my cache d hdec]
      rw [if_pos (by
        apply List.any_eq_true.mpr
        exact ⟨upgO cache d o, by simp, by simp [hupg_id, hdi]⟩)]

theorem runSendEvents_shape
    (raw : RawMsg) (my : Str) (cache : List (Str × CachedProfile))
    (optId X body : Str) (d o : ChatMessage)
    (pre post : List ChatMessage)
    (hdec : decodeMessage raw my = some d)
    (hdm : d.senderAddress = my) (hdc : d.content = body) (hdi : d.id = X)
    (hoid : o.id = optId) (hoptTag : startsWithS optId optTag = true)
    (hos : o.senderAddress = my) (hoc : o.content = body)
    (hXopt : X ≠ optId)
    (hclean : ∀ x ∈ pre ++ post,
      ¬(x.senderAddress = my ∧ x.content = body) ∧ x.id ≠ optId ∧ x.id ≠ X) :
    ∀ (evs : List SendEv) (e : ChatMessage), sendShape cache d o e →
      ∃ e', runSendEvents raw my cache optId (pre ++ e :: post) evs = pre ++ e' :: post ∧
        sendShape cache d o e' ∧
        ((SendEv.resolve ∈ evs ∨ sendShapeSent cache d o e) →
          sendShapeSent cache d o e') := by
  intro evs
  induction evs with
  | nil =>
    intro e he
    refine ⟨e, rfl, he, ?_⟩
    intro h
    rcases h with h | h
    · cases h
    · exact h
  | cons ev evs ih =>
    intro e he
    obtain ⟨e1, hstep, he1, hsent1⟩ :=
      sendStep_shape raw my cache optId X body d o pre post hdec hdm hdc hdi hoid
        hoptTag hos hoc hXopt hclean ev e he
    obtain ⟨e', hrun, he', hsent'⟩ := ih e1 he1
    refine ⟨e', ?_, he', ?_⟩
    · show runSendEvents raw my cache optId
        (sendStep raw my cache optId (pre ++ e :: post) ev) evs = _
      rw [hstep, hrun]
    · intro h
      rcases h with h | h
      · rcases List.mem_cons.mp h with rfl | hmem
        · exact hsent' (Or.inr (hsent1 (Or.inl rfl)))
        · exact hsent' (Or.inl hmem)
      · exact hsent' (Or.inr (hsent1 (Or.inr h)))

/-- C1: for any interleaving of the optimistic local send, live-stream
delivery, and periodic resync concerning the same logical send by the local
user — the optimistic entry is appended first, the send promise resolves
successfully at some point, and the transport echo may arrive any number of
times on either the live stream or a resync — the reconciled message list
contains exactly one entry for that send, and that entry's status ends as
Sent. -/
theorem c1_single_send_reconciliation
    (raw : RawMsg) (my : Str) (cache : List (Str × CachedProfile))
    (optId X body : Str) (d o : ChatMessage)
    (pre post : List ChatMessage)
    (hdec : decodeMessage raw my = some d)
    (hdm : d.senderAddress = my) (hdc : d.content = body) (hdi : d.id = X)
    (hoid : o.id = optId) (hoptTag : startsWithS optId optTag = true)
    (hos : o.senderAddress = my) (hoc : o.content = body)
    (hstatus : o.status = some .sending)
    (hXopt : X ≠ optId)
    (hclean : ∀ x ∈ pre ++ post,
      ¬(x.senderAddress = my ∧ x.content = body) ∧ x.id ≠ optId ∧ x.id ≠ X)
    (evs : List SendEv) (hres : SendEv.resolve ∈ evs) :
    countForSend (runSendEvents raw my cache optId (pre ++ o :: post) evs) my body = 1 ∧
    (((runSendEvents raw my cache optId (pre ++ o :: post) evs).filter
        fun m => decide (m.senderAddress = my ∧ m.content = body)).getD 0
          default).status = some MsgStatus.sent := by
  obtain ⟨e', hrun, _, hsent⟩ :=
    runSendEvents_shape raw my cache optId X body d o pre post hdec hdm hdc hdi hoid
      hoptTag hos hoc hXopt hclean evs o (Or.inl rfl)
  have hsent' := hsent (Or.inl hres)
  have henr := enrichWithNft_preserves cache d
  have hmatch : (decide (e'.senderAddress = my ∧ e'.content = body)) = true := by
    rcases hsent' with rfl | rfl
    · show decide ((sentO o).senderAddress = my ∧ (sentO o).content = body) = true
      simp [sentO, hos, hoc]
    · show decide ((upgO cache d o).senderAddress = my ∧
        (upgO cache d o).content = body) = true
      have h1 : (upgO cache d o).senderAddress = (enrichWithNft cache d).senderAddress :=
        rfl
      have h2 : (upgO cache d o).content = (enrichWithNft cache d).content := rfl
      simp [h1, h2, henr.2.1, henr.2.2.1, hdm, hdc]
  have hfilter : (runSendEvents raw my cache optId (pre ++ o :: post) evs).filter
      (fun m => decide (m.senderAddress = my ∧ m.content = body)) = [e'] := by
    rw [hrun, List.filter_append, List.filter_cons]
    rw [List.filter_eq_nil_iff.mpr (fun x hx => by simp [(hclean x (by simp [hx])).1]),
      List.filter_eq_nil_iff.mpr (fun x hx => by simp [(hclean x (by simp [hx])).1])]
    rw [if_pos hmatch]
    rfl
  constructor
  · rw [countForSend, hfilter]
    rfl
  · rw [hfilter]
    rcases hsent' with rfl | rfl
    · rfl
    · rfl

/-- Witness for C1 at a concrete scenario: the optimistic entry, the live
echo (skipped), a resync delivery (upgrade in place) and the promise
resolution, in that order. -/
theorem c1_single_send_reconciliation_witness :
    countForSend
        (runSendEvents sampleEcho sampleMy [] ['o', 'p', 't', '-', '1']
          ([] ++ sampleOpt :: []) [SendEv.live, SendEv.syncd, SendEv.resolve])
        sampleMy sampleBody = 1 ∧
    (((runSendEvents sampleEcho sampleMy [] ['o', 'p', 't', '-', '1']
          ([] ++ sampleOpt :: []) [SendEv.live, SendEv.syncd, SendEv.resolve]).filter
        fun m => decide (m.senderAddress = sampleMy ∧ m.content = sampleBody)).getD 0
          default).status = some MsgStatus.sent :=
  c1_single_send_reconciliation sampleEcho sampleMy [] ['o', 'p', 't', '-', '1']
    ['x', '1'] sampleBody sampleDecoded sampleOpt [] [] (by decide) (by decide)
    (by decide) (by decide) (by decide) (by decide) (by decide) (by decide) (by decide)
    (by decide) (by decide) [SendEv.live, SendEv.syncd, SendEv.resolve] (by decide)

/-- Witness for C2 at concrete envelopes: a wrapped text message and a
wrapped REPLYv2 quoting a body that contains a colon and an emoji. -/
theorem c2_codec_roundtrip_witness :
    decodeMessage ⟨['x', '2'], ['a', 'l'], 0,
        .ok (packMessage ['g', 'm'] (some ['b', 'o', 'b']))⟩ sampleMy =
      some ⟨['x', '2'], ['a', 'l'], some ['b', 'o', 'b'], none, ['g', 'm'], 0,
        buildEmptyReactions, none, some .sent⟩ ∧
    decodeMessage ⟨['x', '3'], ['a', 'l'], 0,
        .ok (packReply sampleOpt ['y', 'o', ':', '🍌'] (some ['a', 'n', 'a']))⟩ sampleMy =
      some ⟨['x', '3'], ['a', 'l'], some ['a', 'n', 'a'], none, ['y', 'o', ':', '🍌'], 0,
        buildEmptyReactions,
        some ⟨sampleOpt.id, sampleOpt.content, sampleOpt.senderAddress,
          sampleOpt.senderUsername⟩,
        some .sent⟩ :=
  ⟨c2_codec_roundtrip.1 ['x', '2'] ['a', 'l'] 0 sampleMy (some ['b', 'o', 'b'])
      ['g', 'm'] (by unfold validName; decide) (by unfold plainBody; decide)
      (by decide),
    c2_codec_roundtrip.2 ['x', '3'] ['a', 'l'] 0 sampleMy (some ['a', 'n', 'a'])
      sampleOpt ['y', 'o', ':', '🍌'] (by unfold validName; decide)
      (show (['b', 'o', 'b'] : Str) ≠ [] ∧ ':' ∉ (['b', 'o', 'b'] : Str) by decide)
      (by decide) (by decide)⟩

/-- Witness for the amended C4 at a concrete scenario: another sender's
confirmed copy upgrades their failed optimistic bubble in place. -/
theorem c4_live_merge_amended_witness :
    ingestLive [mergeOpt] otherEcho sampleMy [] =
      [mergeOpt].set 0 (mkUpgraded (enrichWithNft [] otherDecoded)
        ([mergeOpt].getD 0 default)) ∧
    (ingestLive [mergeOpt] otherEcho sampleMy []).length = [mergeOpt].length :=
  (c4_live_merge_amended [mergeOpt] otherEcho sampleMy [] otherDecoded
      (by decide)).2 (by decide) (by decide) 0 (by decide)

/-- Witness for C5 at a concrete scenario: a resync delivery of the local
user's own echo upgrades the optimistic entry in place. -/
theorem c5_resync_own_upgrade_only_witness :
    syncDeliver [sampleOpt] sampleEcho sampleMy [] =
      [sampleOpt].set 0 (mkUpgraded (enrichWithNft [] sampleDecoded)
        ([sampleOpt].getD 0 default)) :=
  (c5_resync_own_upgrade_only [sampleOpt] sampleEcho sampleMy [] sampleDecoded
      (by decide) (by decide) (by decide)).2.2 0 (by decide)

/-- Witness for C7 at a concrete scenario: after two distinct senders toggle
the banana on, the aggregate state has a duplicate-free reactor list of
length two, count two, and a non-negative count. -/
theorem c7_reaction_count_invariant_witness :
    bananaBoth.reactors.Nodup ∧
    bananaBoth.count = (bananaBoth.reactors.length : Int) ∧ 0 ≤ bananaBoth.count :=
  c7_reaction_count_invariant [reactedTarget] [reactAl, reactMe] sampleMy (by decide)
    { reactedTarget with reactions := [(['🍌'], bananaBoth)] } (by decide)
    ['🍌'] bananaBoth (by decide)

/-- Witness for C8 at a concrete scenario: a reaction whose target id is not
loaded leaves the list unchanged. -/
theorem c8_reaction_noop_witness :
    applyReaction [reactedTarget] reactStray sampleMy = [reactedTarget] :=
  (c8_reaction_noop [reactedTarget] reactStray sampleMy).1 (by decide)

end OnlyMonkes
